import Mathlib

/-!
Verification development for the Durak game backend (Cloudflare Workers
durable-object server, `src/index.ts`).

The TypeScript source is shallowly embedded: JS strings are Lean `String`s,
JS arrays are Lean `List`s (with `push` = append at the end, `pop` = remove
the last element), the `Record<string, T>` maps are total functions
`String → T` defaulting to the empty value (a missing key reads as
`undefined`, which the handlers only ever observe through `includes` /
`length` on hands, where the empty list gives the same answers the
validation paths take), and the per-handler mutation of the single
`GameState` is explicit state passing.  `Date.now()` timestamps
(`updatedAt`, `iat`) carry no game logic and are dropped.
-/

namespace Durak

abbrev Card := String

/-- `SUITS` from the source: the four suit letters. -/
def SUITS : List Char := ['S', 'H', 'D', 'C']

/-- `RANKS_36` from the source. -/
def RANKS_36 : List Nat := [6, 7, 8, 9, 10, 11, 12, 13, 14]

/-- `RANKS_24` from the source. -/
def RANKS_24 : List Nat := [9, 10, 11, 12, 13, 14]

/-- `rankToStr` from the source: 11⇒J, 12⇒Q, 13⇒K, 14⇒A, else decimal. -/
def rankToStr (r : Nat) : String :=
  if r = 11 then "J"
  else if r = 12 then "Q"
  else if r = 13 then "K"
  else if r = 14 then "A"
  else toString r

def charDigit (c : Char) : Option Nat :=
  if '0' ≤ c ∧ c ≤ '9' then some (c.toNat - Char.toNat '0') else none

/-- Decimal value of a digit string, `none` on anything else. -/
def digitsToNat : List Char → Option Nat
  | [] => none
  | cs =>
    cs.foldl
      (fun acc c =>
        match acc, charDigit c with
        | some n, some d => some (n * 10 + d)
        | _, _ => none)
      (some 0)

/-- `strToRank` from the source (on the rank characters of a token).  The JS
`Number(s)` coercion followed by the membership test in `[6,7,8,9,10]` is
modelled by decimal parsing; the two agree on every decimal-digit string,
which is the only shape the membership test can accept apart from exotic
numeric spellings that no caller produces. -/
def strToRank (s : List Char) : Option Nat :=
  if s = ['J'] then some 11
  else if s = ['Q'] then some 12
  else if s = ['K'] then some 13
  else if s = ['A'] then some 14
  else
    match digitsToNat s with
    | some n => if n = 6 ∨ n = 7 ∨ n = 8 ∨ n = 9 ∨ n = 10 then some n else none
    | none => none

structure ParsedCard where
  suit : Char
  rank : Nat
deriving DecidableEq, Repr

/-- `parseCard` from the source: a card token is a suit letter followed by a
rank; `null` on anything shorter than two characters, an unknown suit or an
unknown rank. -/
def parseCard (card : Card) : Option ParsedCard :=
  match card.data with
  | [] => none
  | s :: rest =>
    if rest = [] then none
    else if SUITS.contains s then
      match strToRank rest with
      | some r => some ⟨s, r⟩
      | none => none
    else none

/-- `createDeck` from the source: suits in canonical order, each with the
rank list selected by the deck size. -/
def createDeck (deckSize : Nat) : List Card :=
  let ranks := if deckSize = 24 then RANKS_24 else RANKS_36
  SUITS.flatMap (fun s => ranks.map (fun r => String.singleton s ++ rankToStr r))

/-- `cardBeats` from the source. -/
def cardBeats (defCard atkCard : Card) (trumpSuit : Char) : Bool :=
  match parseCard defCard, parseCard atkCard with
  | some d, some a =>
    if d.suit = a.suit then decide (a.rank < d.rank)
    else if d.suit = trumpSuit && a.suit != trumpSuit then true
    else false
  | _, _ => false

structure TablePair where
  a : Card
  d : Option Card
deriving DecidableEq, Repr

/-- `tableRanks` from the source.  The JS `Set<Rank>` is only ever read
through `has`, so a list with the same members is an exact model. -/
def tableRanks (table : List TablePair) : List Nat :=
  table.flatMap fun p =>
    (match parseCard p.a with | some a => [a.rank] | none => []) ++
    (match p.d with
     | some dc => match parseCard dc with | some d => [d.rank] | none => []
     | none => [])

/-- `attackRanksOnly` from the source. -/
def attackRanksOnly (table : List TablePair) : List Nat :=
  table.flatMap fun p =>
    match parseCard p.a with | some a => [a.rank] | none => []

/-- `isNeedDefense` from the source. -/
def isNeedDefense (table : List TablePair) : Bool :=
  table.any fun p => p.d.isNone

/-- `isFullyDefended` from the source. -/
def isFullyDefended (table : List TablePair) : Bool :=
  !table.isEmpty && table.all fun p => p.d.isSome

/-- `nextActiveId` from the source: scan forward from `fromId` (wrapping)
for the first active id; fall back to `fromId`, or to `order[0]` when
`fromId` is not seated. -/
def nextActiveId (order : List String) (active : String → Bool) (fromId : String) : String :=
  match order.indexOf? fromId with
  | none => order.headD ""
  | some start =>
    let n := order.length
    let found := (List.range n).findSome? fun k0 =>
      let idx := (start + k0 + 1) % n
      match order[idx]? with
      | some id => if active id then some id else none
      | none => none
    found.getD fromId

/-- `listAttackers` from the source. -/
def listAttackers (order : List String) (active : String → Bool) (defenderId : String) :
    List String :=
  order.filter fun id => active id && id != defenderId

/-- `lowestTrumpRank` from the source. -/
def lowestTrumpRank (hand : List Card) (trumpSuit : Char) : Option Nat :=
  hand.foldl
    (fun best c =>
      match parseCard c with
      | none => best
      | some p =>
        if p.suit ≠ trumpSuit then best
        else
          match best with
          | none => some p.rank
          | some b => if p.rank < b then some p.rank else best)
    none

/-- The sort key of `sortBySuitThenRank`: suit letter, then rank.  The JS
comparator dereferences `parseCard c` unconditionally; hands only ever hold
canonical tokens, and unparsable tokens get a junk key here instead of the
JS crash. -/
def cardKey (c : Card) : Char × Nat :=
  match parseCard c with
  | some p => (p.suit, p.rank)
  | none => ('?', 0)

/-- Total-order form of the `sortBySuitThenRank` comparator. -/
def cardLe (x y : Card) : Bool :=
  decide ((cardKey x).1 < (cardKey y).1) ||
    ((cardKey x).1 == (cardKey y).1 && decide ((cardKey x).2 ≤ (cardKey y).2))

/-- Sorted insert for `sortHand`, keeping earlier elements first on ties. -/
def insertCard (c : Card) : List Card → List Card
  | [] => [c]
  | x :: xs => if cardLe c x then c :: x :: xs else x :: insertCard c xs

/-- `hand.sort(sortBySuitThenRank)` from the source: a stable sort by the
suit-then-rank key (insertion sort; hands hold pairwise distinct cards, for
which every sort by this key produces the same list). -/
def sortHand : List Card → List Card
  | [] => []
  | x :: xs => insertCard x (sortHand xs)

inductive Mode
  | podkidnoy
  | perevodnoy
deriving DecidableEq, Repr

/-- `RoomConfig` from the source. -/
structure RoomConfig where
  mode : Mode
  deckSize : Nat
  maxPlayers : Nat
deriving DecidableEq, Repr

inductive Phase
  | playing
  | finished
deriving DecidableEq, Repr

/-- `GameState` from the source (`roomId` and `updatedAt` dropped: the first
is an opaque label, the second a wall-clock timestamp). -/
structure GameState where
  config : RoomConfig
  phase : Phase
  order : List String
  active : String → Bool
  deck : List Card
  trumpSuit : Char
  trumpCard : Card
  hands : String → List Card
  table : List TablePair
  discard : List Card
  attackerId : String
  defenderId : String
  roundLimit : Nat
  passed : List String
  takeDeclared : Bool
  loser : Option String

/-- The inner `while (hand.length < 6 && deck.length > 0)` of `drawUpTo6`:
pop from the stock end of the deck into the hand.  The loop consumes one
deck card per iteration, so running it with `deck.length` fuel (as
`drawUpTo6` does) is exactly the unbounded loop: at fuel 0 the deck is
empty and the guard fails anyway. -/
def drawLoop : Nat → List Card → List Card → List Card × List Card
  | 0, hand, deck => (hand, deck)
  | fuel + 1, hand, deck =>
    if h : hand.length < 6 ∧ deck ≠ [] then
      drawLoop fuel (hand ++ [deck.getLast h.2]) deck.dropLast
    else (hand, deck)

/-- `drawUpTo6` from the source: each player in `drawOrder` draws up to six,
then has their hand re-sorted. -/
def drawUpTo6 (hands : String → List Card) (deck : List Card) (drawOrder : List String) :
    (String → List Card) × List Card :=
  drawOrder.foldl
    (fun st pid =>
      let res := drawLoop st.2.length (st.1 pid) st.2
      (Function.update st.1 pid (sortHand res.1), res.2))
    (hands, deck)

/-- `pruneOutPlayers` from the source: once the deck is empty, empty-handed
players leave the round-robin; with one player left the game finishes with
that player as loser, with zero it finishes as a draw. -/
def pruneOutPlayers (g : GameState) : GameState :=
  if g.deck.isEmpty then
    let active' := fun id =>
      if g.order.contains id && g.active id && (g.hands id).isEmpty then false
      else g.active id
    let alive := g.order.filter active'
    if alive.length = 1 then
      { g with active := active', phase := .finished, loser := some (alive.headD "") }
    else if alive.length = 0 then
      { g with active := active', phase := .finished, loser := none }
    else { g with active := active' }
  else g

inductive VResult
  | ok
  | fail (code : String)
deriving DecidableEq, Repr

/-- `RoomDO.validateAttack` from the source, checks in source order. -/
def validateAttack (g : GameState) (playerId : String) (card : Card) : VResult :=
  if !g.active playerId then .fail "NOT_ACTIVE"
  else if playerId = g.defenderId then .fail "DEFENDER_CANNOT_ATTACK"
  else if g.passed.contains playerId then .fail "YOU_PASSED"
  else if !(g.hands playerId).contains card then .fail "CARD_NOT_IN_HAND"
  else if g.roundLimit ≤ g.table.length then .fail "ROUND_LIMIT"
  else if g.table.isEmpty then
    if playerId ≠ g.attackerId then .fail "ONLY_MAIN_ATTACKER_STARTS" else .ok
  else
    match parseCard card with
    | none => .fail "BAD_CARD"
    | some p =>
      if (tableRanks g.table).contains p.rank then .ok else .fail "RANK_NOT_ON_TABLE"

/-- `RoomDO.validateDefend` from the source. -/
def validateDefend (g : GameState) (card : Card) (attackIndex : Int) : VResult :=
  if attackIndex < 0 ∨ (g.table.length : Int) ≤ attackIndex then .fail "BAD_ATTACK_INDEX"
  else
    match g.table[attackIndex.toNat]? with
    | none => .fail "BAD_ATTACK_INDEX"
    | some pair =>
      if pair.d.isSome then .fail "ALREADY_DEFENDED"
      else if !(g.hands g.defenderId).contains card then .fail "CARD_NOT_IN_HAND"
      else if !cardBeats card pair.a g.trumpSuit then .fail "DOES_NOT_BEAT"
      else .ok

/-- `RoomDO.validateTransfer` from the source. -/
def validateTransfer (g : GameState) (card : Card) : VResult :=
  if g.config.mode ≠ .perevodnoy then .fail "MODE_NOT_PEREVODNOY"
  else if g.takeDeclared then .fail "TAKE_ALREADY_DECLARED"
  else if g.table.isEmpty then .fail "NOTHING_TO_TRANSFER"
  else if g.table.any (fun p => p.d.isSome) then .fail "CANNOT_TRANSFER_AFTER_DEFEND"
  else if !(g.hands g.defenderId).contains card then .fail "CARD_NOT_IN_HAND"
  else
    match parseCard card with
    | none => .fail "BAD_CARD"
    | some p =>
      if (attackRanksOnly g.table).contains p.rank then .ok
      else .fail "RANK_MUST_MATCH_ATTACK"

/-- `RoomDO.resetRoundVars` from the source: clear `passed` and
`takeDeclared`, set `roundLimit` to the defender's hand size (no clamp). -/
def resetRoundVars (g : GameState) : GameState :=
  { g with passed := [], takeDeclared := false,
           roundLimit := (g.hands g.defenderId).length }

/-- The cards of one table pair, attack first, as pushed by the
`endRound*` loops. -/
def pairCards (p : TablePair) : List Card :=
  p.a :: p.d.toList

/-- The draw-order loop shared by `endRoundTake` / `endRoundBeat`: walk
`nextActiveId` from the attacker, stop after pushing the defender; the
`drawOrder.length > order.length + 2` guard bounds the walk, which the
fuel argument mirrors exactly (the guard fires after `order.length + 2`
loop pushes). -/
def drawOrderLoop (order : List String) (active : String → Bool) (defenderId : String) :
    Nat → String → List String
  | 0, _ => []
  | fuel + 1, cur =>
    let nxt := nextActiveId order active cur
    if nxt = defenderId then [nxt]
    else nxt :: drawOrderLoop order active defenderId fuel nxt

/-- The `drawOrder` built at the start of `endRoundTake` / `endRoundBeat`:
attacker first, then around the table, defender last. -/
def buildDrawOrder (g : GameState) : List String :=
  g.attackerId :: drawOrderLoop g.order g.active g.defenderId (g.order.length + 2) g.attackerId

/-- First block of `endRoundTake`: the defender's hand absorbs every card
on the table (re-sorted), the table empties. -/
def takePhase (g : GameState) : GameState :=
  { g with hands := Function.update g.hands g.defenderId
             (sortHand (g.hands g.defenderId ++ g.table.flatMap pairCards)),
           table := [] }

/-- First block of `endRoundBeat`: the table cards move to the discard
pile, attack card before its cover, the table empties. -/
def discardPhase (g : GameState) : GameState :=
  { g with discard := g.discard ++ g.table.flatMap pairCards, table := [] }

/-- The refill block shared by both round resolutions: `drawUpTo6` over the
draw order built from the current seats. -/
def refillPhase (g : GameState) : GameState :=
  let res := drawUpTo6 g.hands g.deck (buildDrawOrder g)
  { g with hands := res.1, deck := res.2 }

/-- The role fix-ups of `endRoundTake` / `endRoundBeat` on candidate
attacker `atk0` and defender `def0`: bump an inactive candidate to the next
active seat, then bump the defender once more if the seats coincide. -/
def fixRolesFrom (g : GameState) (atk0 def0 : String) : GameState :=
  let atk1 := if g.active atk0 then atk0 else nextActiveId g.order g.active atk0
  let def1 := if g.active def0 then def0 else nextActiveId g.order g.active def0
  let def2 := if def1 = atk1 then nextActiveId g.order g.active atk1 else def1
  { g with attackerId := atk1, defenderId := def2 }

/-- `RoomDO.endRoundTake` from the source: the defender takes every card on
the table, everyone refills, the defender seat moves one active player past
the taker, the attacker seat is only touched by the inactivity /
coincidence fix-ups, and the round variables reset.  (`takePhase` and
`refillPhase` leave `order`, `active` and the seats untouched, so the
`nextActiveId` call reads them off `g` directly.) -/
def endRoundTake (g : GameState) : GameState :=
  let g4 := pruneOutPlayers
    { refillPhase (takePhase g) with
        defenderId := nextActiveId g.order g.active g.defenderId }
  if g4.phase = .finished then g4
  else resetRoundVars (fixRolesFrom g4 g4.attackerId g4.defenderId)

/-- `RoomDO.endRoundBeat` from the source: the table goes to the discard,
everyone refills, roles rotate (new attacker = old defender, new defender =
next active computed before the prune) with the same fix-ups, and the round
variables reset. -/
def endRoundBeat (g : GameState) : GameState :=
  let g3 := pruneOutPlayers (refillPhase (discardPhase g))
  if g3.phase = .finished then g3
  else resetRoundVars
    (fixRolesFrom g3 g.defenderId (nextActiveId g.order g.active g.defenderId))

/-- Observable effects of one event handler: a typed `ERROR` frame to one
player's sockets (`sendErrTo`), a storage write (`persist`), a state
broadcast (`broadcastStates`). -/
inductive Effect
  | errTo (pid : String) (code : String)
  | persistEff
  | broadcastEff
deriving DecidableEq, Repr

structure Outcome where
  g : GameState
  effects : List Effect

/-- The error path every handler takes: `sendErrTo` to the sender and
return, with no mutation and no persist. -/
def errOut (g : GameState) (pid code : String) : Outcome :=
  ⟨g, [.errTo pid code]⟩

/-- The success path every handler takes: mutate, `persist`, broadcast. -/
def okOut (g : GameState) : Outcome :=
  ⟨g, [.persistEff, .broadcastEff]⟩

/-- `RoomDO.onAttack` from the source. -/
def onAttack (g : GameState) (tgId : String) (card : Card) : Outcome :=
  if g.phase ≠ .playing then errOut g tgId "GAME_NOT_PLAYING"
  else
    match validateAttack g tgId card with
    | .fail c => errOut g tgId c
    | .ok =>
      okOut { g with hands := Function.update g.hands tgId ((g.hands tgId).erase card),
                     table := g.table ++ [⟨card, none⟩] }

/-- `RoomDO.onDefend` from the source.  `attackIndex` is an integer; the
`Number.isInteger` guard of the source rejects only non-integer numbers,
which `Int` cannot represent. -/
def onDefend (g : GameState) (tgId : String) (attackIndex : Int) (card : Card) : Outcome :=
  if g.phase ≠ .playing then errOut g tgId "GAME_NOT_PLAYING"
  else if tgId ≠ g.defenderId then errOut g tgId "ONLY_DEFENDER_CAN_DEFEND"
  else if g.takeDeclared then errOut g tgId "TAKE_ALREADY_DECLARED"
  else
    match validateDefend g card attackIndex with
    | .fail c => errOut g tgId c
    | .ok =>
      match g.table[attackIndex.toNat]? with
      | none => errOut g tgId "BAD_ATTACK_INDEX"
      | some pair =>
        okOut { g with
                  hands := Function.update g.hands g.defenderId
                    ((g.hands g.defenderId).erase card),
                  table := g.table.set attackIndex.toNat ⟨pair.a, some card⟩ }

/-- `RoomDO.onTransfer` from the source: push the transfer card as a new
attack, rotate attacker := old defender, defender := next active, and set
`roundLimit` to the new defender's hand size (no clamp). -/
def onTransfer (g : GameState) (tgId : String) (card : Card) : Outcome :=
  if g.phase ≠ .playing then errOut g tgId "GAME_NOT_PLAYING"
  else if tgId ≠ g.defenderId then errOut g tgId "ONLY_DEFENDER_CAN_TRANSFER"
  else
    match validateTransfer g card with
    | .fail c => errOut g tgId c
    | .ok =>
      let hands1 := Function.update g.hands g.defenderId ((g.hands g.defenderId).erase card)
      let table1 := g.table ++ [⟨card, none⟩]
      let oldDef := g.defenderId
      let newDef := nextActiveId g.order g.active oldDef
      okOut { g with hands := hands1, table := table1,
                     attackerId := oldDef, defenderId := newDef,
                     roundLimit := (hands1 newDef).length,
                     passed := [], takeDeclared := false }

/-- `RoomDO.onTake` from the source. -/
def onTake (g : GameState) (tgId : String) : Outcome :=
  if g.phase ≠ .playing then errOut g tgId "GAME_NOT_PLAYING"
  else if tgId ≠ g.defenderId then errOut g tgId "ONLY_DEFENDER_CAN_TAKE"
  else if g.table.isEmpty then errOut g tgId "NOTHING_ON_TABLE"
  else okOut { g with takeDeclared := true, passed := [] }

/-- `RoomDO.onPass` from the source: record the pass (idempotently), then
resolve the round by the take path when the defender has declared TAKE and
every attacker has passed. -/
def onPass (g : GameState) (tgId : String) : Outcome :=
  if g.phase ≠ .playing then errOut g tgId "GAME_NOT_PLAYING"
  else if tgId = g.defenderId then errOut g tgId "DEFENDER_CANNOT_PASS"
  else if g.table.isEmpty then errOut g tgId "NOTHING_ON_TABLE"
  else
    let passed1 := if g.passed.contains tgId then g.passed else g.passed ++ [tgId]
    let g1 : GameState := { g with passed := passed1 }
    let attackers := listAttackers g1.order g1.active g1.defenderId
    let allPassed := attackers.all fun id => g1.passed.contains id
    if g1.takeDeclared && allPassed then okOut (endRoundTake g1)
    else okOut g1

/-- `RoomDO.onBeat` from the source. -/
def onBeat (g : GameState) (tgId : String) : Outcome :=
  if g.phase ≠ .playing then errOut g tgId "GAME_NOT_PLAYING"
  else if tgId ≠ g.defenderId then errOut g tgId "ONLY_DEFENDER_CAN_BEAT"
  else if !isFullyDefended g.table then errOut g tgId "NOT_FULLY_DEFENDED"
  else
    let attackers := listAttackers g.order g.active g.defenderId
    if !(attackers.all fun id => g.passed.contains id) then
      errOut g tgId "ATTACKERS_NOT_PASSED"
    else okOut (endRoundBeat g)

/-- The gameplay client events dispatched by `webSocketMessage`. -/
inductive Ev
  | ATTACK (pid : String) (card : Card)
  | DEFEND (pid : String) (attackIndex : Int) (card : Card)
  | TRANSFER (pid : String) (card : Card)
  | TAKE (pid : String)
  | PASS (pid : String)
  | BEAT (pid : String)
deriving DecidableEq, Repr

/-- The player a gameplay event originates from. -/
def Ev.pid : Ev → String
  | .ATTACK p _ => p
  | .DEFEND p _ _ => p
  | .TRANSFER p _ => p
  | .TAKE p => p
  | .PASS p => p
  | .BEAT p => p

/-- One gameplay event through the `webSocketMessage` dispatch. -/
def step (g : GameState) : Ev → Outcome
  | .ATTACK pid card => onAttack g pid card
  | .DEFEND pid idx card => onDefend g pid idx card
  | .TRANSFER pid card => onTransfer g pid card
  | .TAKE pid => onTake g pid
  | .PASS pid => onPass g pid
  | .BEAT pid => onBeat g pid

/-- Run a sequence of gameplay events; rejected events leave the state as
they found it, exactly as in the room actor. -/
def runEvents (evs : List Ev) (g : GameState) : GameState :=
  evs.foldl (fun g e => (step g e).g) g

/-- One round of the deal loop body: `deck.pop()` into `hands[pid]`. -/
def dealOne (st : (String → List Card) × List Card) (pid : String) :
    (String → List Card) × List Card :=
  match st.2.getLast? with
  | some c => (Function.update st.1 pid (st.1 pid ++ [c]), st.2.dropLast)
  | none => (st.1, st.2.dropLast)

/-- One deal round: every seated player pops one card. -/
def dealRound (order : List String) (st : (String → List Card) × List Card) :
    (String → List Card) × List Card :=
  order.foldl dealOne st

/-- The `for (let i = 0; i < 6; i++)` deal loop of `initGame`. -/
def dealRounds : Nat → List String → ((String → List Card) × List Card) →
    (String → List Card) × List Card
  | 0, _, st => st
  | n + 1, order, st => dealRounds n order (dealRound order st)

/-- The six-round deal loop of `initGame`, from empty hands. -/
def dealHands (order : List String) (shuffled : List Card) :
    (String → List Card) × List Card :=
  dealRounds 6 order (fun _ => [], shuffled)

/-- The dealt hands after the per-player `sort` of `initGame` (only seated
players' hands exist, and only those are sorted). -/
def sortedHands (order : List String) (shuffled : List Card) : String → List Card :=
  fun id =>
    if order.contains id then sortHand ((dealHands order shuffled).1 id)
    else (dealHands order shuffled).1 id

/-- The first-attacker selection of `initGame`: lowest trump rank wins,
earlier seat wins ties, seat 0 if nobody holds a trump. -/
def firstAttacker (order : List String) (hands : String → List Card)
    (trumpSuit : Char) : String :=
  let best := order.foldl
    (fun (acc : Option Nat × Option String) pid =>
      match lowestTrumpRank (hands pid) trumpSuit with
      | none => acc
      | some r =>
        match acc.1 with
        | none => (some r, some pid)
        | some b => if r < b then (some r, some pid) else acc)
    (none, none)
  best.2.getD (order.headD "")

/-- `RoomDO.initGame` from the source, with the `shuffle` output passed in
as `shuffled` (the shuffle draws from `Math.random`, so the dealt deck is
an input of the pure model).  `none` models the crash of
`parseCard(trumpCard)!` on an empty or unparsable deck head
(`trumpCard = deck[0]`). -/
def initGame (cfg : RoomConfig) (players : List String) (shuffled : List Card) :
    Option GameState :=
  match shuffled with
  | [] => none
  | c0 :: _ =>
    match parseCard c0 with
    | none => none
    | some pc =>
      let order := players.take cfg.maxPlayers
      let active := fun id => order.contains id
      let hands2 := sortedHands order shuffled
      let attackerId := firstAttacker order hands2 pc.suit
      let defenderId := nextActiveId order active attackerId
      some { config := cfg, phase := .playing, order := order, active := active,
             deck := (dealHands order shuffled).2, trumpSuit := pc.suit,
             trumpCard := c0, hands := hands2, table := [], discard := [],
             attackerId := attackerId, defenderId := defenderId,
             roundLimit := (hands2 defenderId).length,
             passed := [], takeDeclared := false, loser := none }

/-- One entry of the `others` array in a player view: public data only. -/
structure OtherView where
  id : String
  active : Bool
  count : Nat
deriving DecidableEq, Repr

/-- The `allowed` action flags of a player view. -/
structure AllowedView where
  attack : Bool
  defend : Bool
  transfer : Bool
  take : Bool
  beat : Bool
  pass : Bool
deriving DecidableEq, Repr

/-- The per-player state view built by `RoomDO.buildStateFor` (`roomId` and
`updatedAt` dropped along with the fields they mirror). -/
structure StateView where
  phase : Phase
  config : RoomConfig
  players : List String
  you : String
  attacker : String
  defender : String
  trumpSuit : Char
  trumpCard : Card
  deckCount : Nat
  yourHand : List Card
  others : List OtherView
  table : List TablePair
  discardCount : Nat
  takeDeclared : Bool
  passed : List String
  allowed : AllowedView
  loser : Option String
deriving DecidableEq, Repr

/-- `RoomDO.buildStateFor` from the source: the tailored view sent to one
player — own hand verbatim, every other hand as a count, the deck as a
count, plus the `allowed` flags. -/
def buildStateFor (g : GameState) (tgId : String) : StateView :=
  let youHand := g.hands tgId
  let others := (g.order.filter (fun id => id ≠ tgId)).map
    (fun id => OtherView.mk id (g.active id) (g.hands id).length)
  let attackers := listAttackers g.order g.active g.defenderId
  let needDefense := isNeedDefense g.table
  let ranksOnTable := tableRanks g.table
  let allowed : AllowedView :=
    if g.phase = .playing ∧ g.active tgId then
      if tgId = g.defenderId then
        let canDefend := !g.takeDeclared && needDefense
        let canTake := !g.takeDeclared && !g.table.isEmpty
        let canTransfer := !g.takeDeclared &&
          (decide (g.config.mode = .perevodnoy) && !g.table.isEmpty &&
            !(g.table.any fun p => p.d.isSome) &&
            (youHand.any fun c =>
              match parseCard c with
              | some p => (attackRanksOnly g.table).contains p.rank
              | none => false))
        let canBeat := isFullyDefended g.table &&
          attackers.all fun id => g.passed.contains id
        ⟨false, canDefend, canTransfer, canTake, canBeat, false⟩
      else
        let hasPassed := g.passed.contains tgId
        let canPass := !g.table.isEmpty && !hasPassed
        let canAttack :=
          if hasPassed then false
          else if g.table.isEmpty then tgId == g.attackerId
          else youHand.any fun c =>
            match parseCard c with
            | some p => ranksOnTable.contains p.rank
            | none => false
        ⟨canAttack, false, false, false, false, canPass⟩
    else ⟨false, false, false, false, false, false⟩
  { phase := g.phase, config := g.config, players := g.order, you := tgId,
    attacker := g.attackerId, defender := g.defenderId,
    trumpSuit := g.trumpSuit, trumpCard := g.trumpCard,
    deckCount := g.deck.length, yourHand := youHand, others := others,
    table := g.table, discardCount := g.discard.length,
    takeDeclared := g.takeDeclared, passed := g.passed, allowed := allowed,
    loser := g.loser }

/-- A throwaway inhabitant of `GameState`, used only to project fields out
of `Option GameState` values that are separately proved to be `some`. -/
def emptyGame : GameState :=
  { config := ⟨.podkidnoy, 36, 2⟩, phase := .finished, order := [],
    active := fun _ => false, deck := [], trumpSuit := 'S', trumpCard := "",
    hands := fun _ => [], table := [], discard := [], attackerId := "",
    defenderId := "", roundLimit := 0, passed := [], takeDeclared := false,
    loser := none }

/-! ## Session tokens and the socket table

JS strings are modelled as `List Char` here so that the `split(".")` of
`verifySession` can be reasoned about directly.  The platform primitives —
HMAC-SHA256 (`hmacSha256Text`/`toHex`), and the
`JSON.stringify`/`TextEncoder`/`base64urlEncode` pipeline with its inverse
— are external to the repository and enter as function parameters `hmacHex`
(deterministic by construction), `enc` and `dec`; the body/signature
composition, the split, the MAC comparison and the expiry handling are the
repository's own code and are embedded. -/

/-- `SessionPayload` from the source (`iat` is a timestamp with no logic on
it, kept for shape). -/
structure SessionPayload where
  tg_id : List Char
  first_name : List Char
  username : List Char
  iat : Nat
  exp : Nat
deriving DecidableEq, Repr

/-- `token.split(".")` on the model strings. -/
def splitOnDot : List Char → List (List Char)
  | [] => [[]]
  | c :: rest =>
    match splitOnDot rest with
    | [] => [[]]
    | cur :: parts => if c = '.' then [] :: cur :: parts else (c :: cur) :: parts

/-- `signSession` from the source: `bodyB64 + "." + hex(HMAC(secret, bodyB64))`,
with `enc` standing for `base64urlEncode(utf8(JSON.stringify(payload)))`. -/
def signSession (enc : SessionPayload → List Char)
    (hmacHex : List Char → List Char → List Char)
    (appSecret : List Char) (payload : SessionPayload) : List Char :=
  let bodyB64 := enc payload
  bodyB64 ++ '.' :: hmacHex appSecret bodyB64

/-- `verifySession` from the source: empty token or secret ⇒ `null`; split
on "." into exactly two parts; recompute the MAC over the body and compare;
decode the body (`dec` = the inverse pipeline, `none` = the caught decode /
parse exception).  Note: no expiry check happens here. -/
def verifySession (dec : List Char → Option SessionPayload)
    (hmacHex : List Char → List Char → List Char)
    (token appSecret : List Char) : Option SessionPayload :=
  if token = [] ∨ appSecret = [] then none
  else
    match splitOnDot token with
    | [bodyB64, sigHex] =>
      if hmacHex appSecret bodyB64 = sigHex then dec bodyB64 else none
    | _ => none

/-- The guard every caller of `verifySession` applies right after it
(`/api/matchmaking`, `MatchmakerDO.fetch`, the JOIN branch of
`RoomDO.webSocketMessage`): reject when `session.exp < Date.now()`. -/
def verifySessionChecked (dec : List Char → Option SessionPayload)
    (hmacHex : List Char → List Char → List Char)
    (token appSecret : List Char) (now : Nat) : Option SessionPayload :=
  match verifySession dec hmacHex token appSecret with
  | none => none
  | some session => if session.exp < now then none else some session

/-- Sockets held by `state.getWebSockets()`, by identity. -/
abbrev SockId := Nat

/-- Effects a `webSocketMessage` invocation can have on sockets. -/
inductive WsEffect
  | sendState (sid : SockId)
  | sendError (sid : SockId) (code : String)
  | closeSock (sid : SockId) (reason : String)
deriving DecidableEq, Repr

/-- The socket table: every accepted WebSocket with its deserialized
attachment (`{ tgId? }`). -/
abbrev SockTable := List (SockId × Option String)

/-- `getAttach(ws).tgId` over the socket table. -/
def getAttachOf (conn : SockTable) (ws : SockId) : Option String :=
  match conn.find? (fun s => s.1 == ws) with
  | some s => s.2
  | none => none

/-- The JOIN branch of `RoomDO.webSocketMessage`: room-ready check, session
verification (`verify` = `verifySession · APP_SECRET`), expiry check, then
`serializeAttachment({tgId})` on this socket, a STATE frame to it, and a
STATE broadcast to every attached socket.  No socket is ever closed with
reason "replaced" — an existing socket of the same player keeps its
attachment and stays in the table. -/
def handleJoin (roomReady : Bool) (verify : List Char → Option SessionPayload)
    (now : Nat) (conn : SockTable) (ws : SockId) (token : List Char) :
    SockTable × List WsEffect :=
  if !roomReady then
    (conn, [.sendError ws "ROOM_NOT_READY", .closeSock ws "Room not ready"])
  else
    match verify token with
    | none => (conn, [.sendError ws "BAD_SESSION", .closeSock ws "Bad session"])
    | some session =>
      if session.exp < now then
        (conn, [.sendError ws "SESSION_EXPIRED", .closeSock ws "Expired"])
      else
        let tgId := String.mk session.tg_id
        let conn' := conn.map fun s => if s.1 = ws then (s.1, some tgId) else s
        (conn', .sendState ws :: conn'.filterMap fun s =>
          match s.2 with
          | some _ => some (WsEffect.sendState s.1)
          | none => none)

/-- The gate every non-JOIN frame passes in `webSocketMessage`: without an
attached `tgId` the frame dies with `NOT_JOINED`, otherwise it reaches the
gameplay handlers under that id. -/
def gameFrameAdmits (conn : SockTable) (ws : SockId) : Option String :=
  getAttachOf conn ws

/-! ## Concrete games used by counterexamples and witnesses

`shuffle` permutes in place with `Math.random`, so any permutation of
`createDeck` is a possible deal; the identity permutation is used below. -/

/-- 2-player podkidnoy room over the 36 deck. -/
def cfgP2 : RoomConfig := ⟨.podkidnoy, 36, 2⟩

/-- The dealt 2-player game on the unshuffled 36 deck. -/
def gInit2 : GameState := (initGame cfgP2 ["a", "b"] (createDeck 36)).getD emptyGame

/-- `gInit2` after the legal opening attack `C6` by `a`. -/
def gMid2 : GameState := (step gInit2 (.ATTACK "a" "C6")).g

/-- `gInit2` after `a` attacks `C6`, `b` declares TAKE, `a` passes: the
round resolves by the take path and `b` defends again holding 7 cards. -/
def gOver2 : GameState := runEvents [.ATTACK "a" "C6", .TAKE "b", .PASS "a"] gInit2

/-- 3-player podkidnoy room over the 36 deck. -/
def cfgP3 : RoomConfig := ⟨.podkidnoy, 36, 3⟩

/-- The dealt 3-player game on the unshuffled 36 deck. -/
def gInit3 : GameState := (initGame cfgP3 ["a", "b", "c"] (createDeck 36)).getD emptyGame

/-- `gInit3` after the legal opening attack `C8` by `a`: one undefended
pair on the table, no TAKE declared. -/
def gMid3 : GameState := (step gInit3 (.ATTACK "a" "C8")).g

/-- `gInit3` after `a` attacks `C8`, `b` declares TAKE, and both `a` and
`c` pass: the round resolves by the take path. -/
def gOver3 : GameState :=
  runEvents [.ATTACK "a" "C8", .TAKE "b", .PASS "a", .PASS "c"] gInit3

/-- 4-player room over the 24 deck: the deal consumes all 24 cards. -/
def cfgP24 : RoomConfig := ⟨.podkidnoy, 24, 4⟩

/-- The dealt 4-player game on the unshuffled 24 deck. -/
def gInit24 : GameState :=
  (initGame cfgP24 ["p1", "p2", "p3", "p4"] (createDeck 24)).getD emptyGame

/-- C1 counterexample: a `roundLimit` of 7 is reachable while the game is
playing — after `a` attacks, `b` takes the card (7 cards in hand) and the
round resets, `resetRoundVars` sets `roundLimit` to the full 7-card hand
size with no clamp to 6. -/
theorem roundLimit_seven_reachable :
    (initGame cfgP2 ["a", "b"] (createDeck 36)).isSome = true ∧
    (step gInit2 (.ATTACK "a" "C6")).effects = [.persistEff, .broadcastEff] ∧
    (step gMid2 (.TAKE "b")).effects = [.persistEff, .broadcastEff] ∧
    (step (step gMid2 (.TAKE "b")).g (.PASS "a")).effects = [.persistEff, .broadcastEff] ∧
    gOver2.phase = .playing ∧
    gOver2.roundLimit = 7 := by
  refine ⟨by decide, by decide, by decide, by decide, by decide, by decide⟩

/-- C3 counterexample: with `takeDeclared = false` and an undefended pair
`C8` on the table, a further ATTACK with a matching-rank card is accepted —
the state mutates (the table grows to two pairs), the effects are the
success pair, and no error is emitted; no `DEFENDER_MUST_RESPOND`
rejection exists. -/
theorem attack_on_undefended_accepted :
    (initGame cfgP3 ["a", "b", "c"] (createDeck 36)).isSome = true ∧
    (step gInit3 (.ATTACK "a" "C8")).effects = [.persistEff, .broadcastEff] ∧
    gMid3.takeDeclared = false ∧
    isNeedDefense gMid3.table = true ∧
    ("a" : String) ≠ gMid3.defenderId ∧
    validateAttack gMid3 "a" "D8" = .ok ∧
    (step gMid3 (.ATTACK "a" "D8")).effects = [.persistEff, .broadcastEff] ∧
    (step gMid3 (.ATTACK "a" "D8")).g.table =
      [⟨"C8", none⟩, ⟨"D8", none⟩] := by
  exact ⟨by decide, by decide, by decide, by decide, by decide, by decide,
    by decide, by decide⟩

/-- C4 counterexample: 3-player game, attacker `a`, defender `b`.  `b`
takes; after resolution the next active player after the taker is `c` and
`c` is active, yet the attacker seat still holds `a` — the previous
attacker remains attacker, and the new defender is `c`, not the seat the
claim derives. -/
theorem take_rotation_keeps_attacker :
    (initGame cfgP3 ["a", "b", "c"] (createDeck 36)).isSome = true ∧
    gInit3.attackerId = "a" ∧
    gInit3.defenderId = "b" ∧
    (step gInit3 (.ATTACK "a" "C8")).effects = [.persistEff, .broadcastEff] ∧
    (step gMid3 (.TAKE "b")).effects = [.persistEff, .broadcastEff] ∧
    (step (step gMid3 (.TAKE "b")).g (.PASS "a")).effects =
      [.persistEff, .broadcastEff] ∧
    (step (runEvents [.TAKE "b", .PASS "a"] gMid3) (.PASS "c")).effects =
      [.persistEff, .broadcastEff] ∧
    gOver3.phase = .playing ∧
    nextActiveId gInit3.order gInit3.active "b" = "c" ∧
    gOver3.active "c" = true ∧
    gOver3.attackerId = "a" ∧
    gOver3.defenderId = "c" := by
  exact ⟨by decide, by decide, by decide, by decide, by decide, by decide,
    by decide, by decide, by decide, by decide, by decide, by decide⟩

/-- C5 counterexample: with deck size 24 and 4 players the deal consumes
the whole deck — every player still gets 6 cards, but the trump card
(`S9`, the bottom card) is no longer in the deck. -/
theorem deal24x4_trump_dealt_out :
    (initGame cfgP24 ["p1", "p2", "p3", "p4"] (createDeck 24)).isSome = true ∧
    (gInit24.hands "p1").length = 6 ∧
    (gInit24.hands "p2").length = 6 ∧
    (gInit24.hands "p3").length = 6 ∧
    (gInit24.hands "p4").length = 6 ∧
    gInit24.deck = [] ∧
    gInit24.trumpCard = "S9" ∧
    gInit24.trumpCard ∉ gInit24.deck := by
  exact ⟨by decide, by decide, by decide, by decide, by decide, by decide,
    by decide, by decide⟩

/-! ## General lemmas -/

theorem pruneOutPlayers_of_deck_ne (g : GameState) (h : g.deck ≠ []) :
    pruneOutPlayers g = g := by
  unfold pruneOutPlayers
  have : g.deck.isEmpty = false := by
    cases hd : g.deck with
    | nil => exact absurd hd h
    | cons a l => simp [hd, List.isEmpty]
  simp [this]

/-- A perevodnoy three-player room. -/
def cfgPv3 : RoomConfig := ⟨.perevodnoy, 36, 3⟩

/-- A perevodnoy endgame position: defender `b` faces two undefended
eights and holds a matching `H8`; the next active player `c` holds a
single card. -/
def gTrV : GameState :=
  { config := cfgPv3, phase := .playing, order := ["a", "b", "c"],
    active := fun id => (["a", "b", "c"] : List String).contains id,
    deck := [], trumpSuit := 'S', trumpCard := "S6",
    hands := fun id =>
      if id = "a" then ["C9"]
      else if id = "b" then ["H8", "S6"]
      else if id = "c" then ["HJ"]
      else [],
    table := [⟨"C8", none⟩, ⟨"D8", none⟩], discard := [],
    attackerId := "a", defenderId := "b", roundLimit := 2, passed := [],
    takeDeclared := false, loser := none }

/-- C1 amended: `roundLimit` is simply the defender's hand size — set
without any clamp to 6 at round reset and after a TRANSFER — so it
exceeds 6 exactly when the defender holds more than 6 cards.  Only
`validateAttack` enforces the table bound (it demands strict room, so an
accepted ATTACK leaves `|table| ≤ roundLimit`); `validateTransfer`
performs no round-limit check at all — its verdict is independent of
`roundLimit` — and an accepted TRANSFER resets `roundLimit` to the new
defender's hand size, which can be smaller than the grown table: on
`gTrV` the accepted transfer `H8` leaves three pairs on the table with
`roundLimit = 1`, so `|table| ≤ roundLimit` is not an invariant. -/
theorem roundLimit_policy :
    (∀ g : GameState, (resetRoundVars g).roundLimit = (g.hands g.defenderId).length) ∧
    (∀ g pid card, validateAttack g pid card = .ok → g.table.length < g.roundLimit) ∧
    (∀ g pid card, g.phase = .playing → validateAttack g pid card = .ok →
      (onAttack g pid card).g.table.length ≤ (onAttack g pid card).g.roundLimit) ∧
    (∀ g pid card, g.phase = .playing → pid = g.defenderId →
      validateTransfer g card = .ok →
      (onTransfer g pid card).g.roundLimit =
        ((onTransfer g pid card).g.hands (onTransfer g pid card).g.defenderId).length) ∧
    (∀ g card n, validateTransfer { g with roundLimit := n } card =
      validateTransfer g card) ∧
    (validateTransfer gTrV "H8" = .ok ∧
      (onTransfer gTrV "b" "H8").effects = [.persistEff, .broadcastEff] ∧
      (onTransfer gTrV "b" "H8").g.table.length = 3 ∧
      (onTransfer gTrV "b" "H8").g.roundLimit = 1) := by
  have hval : ∀ g pid card, validateAttack g pid card = .ok →
      g.table.length < g.roundLimit := by
    intro g pid card h
    unfold validateAttack at h
    split at h
    · exact absurd h (by simp)
    split at h
    · exact absurd h (by simp)
    split at h
    · exact absurd h (by simp)
    split at h
    · exact absurd h (by simp)
    split at h
    · exact absurd h (by simp)
    next h5 => omega
  refine ⟨fun g => rfl, hval, ?_, ?_, fun g card n => rfl,
    by decide, by decide, by decide, by decide⟩
  · intro g pid card hphase hok
    have hlt := hval g pid card hok
    have hstep : onAttack g pid card =
        okOut { g with hands := Function.update g.hands pid ((g.hands pid).erase card),
                       table := g.table ++ [⟨card, none⟩] } := by
      unfold onAttack
      rw [hphase, hok]
      simp
    rw [hstep]
    simp [okOut, List.length_append]
    omega
  · intro g pid card hphase hdef hok
    have hstep : onTransfer g pid card =
        okOut { g with
                  hands := Function.update g.hands g.defenderId
                    ((g.hands g.defenderId).erase card),
                  table := g.table ++ [⟨card, none⟩],
                  attackerId := g.defenderId,
                  defenderId := nextActiveId g.order g.active g.defenderId,
                  roundLimit := (Function.update g.hands g.defenderId
                    ((g.hands g.defenderId).erase card)
                    (nextActiveId g.order g.active g.defenderId)).length,
                  passed := [], takeDeclared := false } := by
      unfold onTransfer
      rw [hphase, hdef, hok]
      simp
    rw [hstep]
    simp [okOut]

/-- C1 amended witness at a concrete accepted attack. -/
theorem roundLimit_policy_witness :
    validateAttack gInit2 "a" "C6" = .ok ∧
    gInit2.table.length < gInit2.roundLimit :=
  ⟨by decide, roundLimit_policy.2.1 gInit2 "a" "C6" (by decide)⟩

/-- C3 amended: `validateAttack` never emits `DEFENDER_MUST_RESPOND` (no
such check exists), and whenever the throw-in conditions hold — active
non-defender who has not passed, card in hand, room below `roundLimit`,
non-empty table, rank present on the table — the attack is accepted with
no regard to `takeDeclared` or undefended pairs. -/
theorem attack_ignores_undefended :
    (∀ g pid card, validateAttack g pid card ≠ .fail "DEFENDER_MUST_RESPOND") ∧
    (∀ g pid card p, g.active pid = true → pid ≠ g.defenderId →
      g.passed.contains pid = false → (g.hands pid).contains card = true →
      g.table.length < g.roundLimit → g.table ≠ [] →
      parseCard card = some p → (tableRanks g.table).contains p.rank = true →
      validateAttack g pid card = .ok) := by
  constructor
  · intro g pid card h
    unfold validateAttack at h
    split at h
    · simp at h
    split at h
    · simp at h
    split at h
    · simp at h
    split at h
    · simp at h
    split at h
    · simp at h
    split at h
    · split at h <;> simp at h
    · split at h
      · simp at h
      · split at h <;> simp at h
  · intro g pid card p h1 h2 h3 h4 h5 h6 h7 h8
    have hne : g.table.isEmpty = false := by
      cases ht : g.table with
      | nil => exact absurd ht h6
      | cons a l => simp [List.isEmpty]
    have h5' : ¬ g.roundLimit ≤ g.table.length := by omega
    have h3' : pid ∉ g.passed := by simpa using h3
    have h4' : card ∈ g.hands pid := by simpa using h4
    have h8' : p.rank ∈ tableRanks g.table := by simpa using h8
    unfold validateAttack
    simp [h1, h2, h3', h4', h7, h8', hne, h5']

/-- C3 amended witness: the concrete throw-in `D8` onto the undefended
`C8` from the 3-player trace. -/
theorem attack_ignores_undefended_witness :
    (gMid3.active "a" = true ∧ ("a" : String) ≠ gMid3.defenderId ∧
     gMid3.passed.contains "a" = false ∧ (gMid3.hands "a").contains "D8" = true ∧
     gMid3.table.length < gMid3.roundLimit ∧ gMid3.table ≠ [] ∧
     parseCard "D8" = some ⟨'D', 8⟩ ∧
     (tableRanks gMid3.table).contains 8 = true) ∧
    validateAttack gMid3 "a" "D8" = .ok :=
  ⟨⟨by decide, by decide, by decide, by decide, by decide, by decide,
    by decide, by decide⟩,
   attack_ignores_undefended.2 gMid3 "a" "D8" ⟨'D', 8⟩ (by decide) (by decide)
     (by decide) (by decide) (by decide) (by decide) (by decide) (by decide)⟩

/-- C4 amended: when the stock still has cards after the refill and the
relevant seats are active, resolving a round by TAKE keeps the previous
attacker in the attacker seat; the defender seat moves to the next active
player after the taker (skipping the taker), stepping once more only if
that lands on the attacker; the new round limit is the new defender's hand
size. -/
theorem endRoundTake_roles (g : GameState)
    (hphase : g.phase = .playing)
    (hatk : g.active g.attackerId = true)
    (hnd : g.active (nextActiveId g.order g.active g.defenderId) = true)
    (hdeck : (refillPhase (takePhase g)).deck ≠ []) :
    (endRoundTake g).attackerId = g.attackerId ∧
    (endRoundTake g).defenderId =
      (if nextActiveId g.order g.active g.defenderId = g.attackerId
       then nextActiveId g.order g.active g.attackerId
       else nextActiveId g.order g.active g.defenderId) ∧
    (endRoundTake g).roundLimit =
      ((endRoundTake g).hands (endRoundTake g).defenderId).length := by
  have hprune : pruneOutPlayers
      { refillPhase (takePhase g) with
          defenderId := nextActiveId g.order g.active g.defenderId } =
      { refillPhase (takePhase g) with
          defenderId := nextActiveId g.order g.active g.defenderId } :=
    pruneOutPlayers_of_deck_ne _ hdeck
  have hres : endRoundTake g =
      resetRoundVars (fixRolesFrom
        { refillPhase (takePhase g) with
            defenderId := nextActiveId g.order g.active g.defenderId }
        g.attackerId (nextActiveId g.order g.active g.defenderId)) := by
    simp only [endRoundTake, hprune]
    split
    · next hfin =>
      have hfin' : g.phase = Phase.finished := hfin
      rw [hphase] at hfin'
      exact absurd hfin' (by decide)
    · rfl
  have hfix : fixRolesFrom
      { refillPhase (takePhase g) with
          defenderId := nextActiveId g.order g.active g.defenderId }
      g.attackerId (nextActiveId g.order g.active g.defenderId) =
      { refillPhase (takePhase g) with
          attackerId := g.attackerId,
          defenderId :=
            if nextActiveId g.order g.active g.defenderId = g.attackerId
            then nextActiveId g.order g.active g.attackerId
            else nextActiveId g.order g.active g.defenderId } := by
    have hact : (refillPhase (takePhase g)).active = g.active := rfl
    have hord : (refillPhase (takePhase g)).order = g.order := rfl
    simp only [fixRolesFrom, hact, hord, hatk, hnd, if_true]
  rw [hres, hfix]
  exact ⟨rfl, rfl, rfl⟩

/-- A mid-game 3-player position used to instantiate `endRoundTake_roles`:
`a` attacks, `b` has declared TAKE with one pair on the table, everyone
passed. -/
def gTakeW : GameState :=
  { config := cfgP3, phase := .playing, order := ["a", "b", "c"],
    active := fun id => (["a", "b", "c"] : List String).contains id,
    deck := ["S6", "S7"], trumpSuit := 'S', trumpCard := "S6",
    hands := fun id =>
      if id = "a" then ["C6", "C7", "C8", "C9", "C10", "CJ"]
      else if id = "b" then ["D6", "D7", "D8", "D9", "D10"]
      else if id = "c" then ["H6", "H7", "H8", "H9", "H10", "HJ"]
      else [],
    table := [⟨"CQ", none⟩], discard := [], attackerId := "a",
    defenderId := "b", roundLimit := 5, passed := ["a", "c"],
    takeDeclared := true, loser := none }

/-- C4 amended witness: on `gTakeW` the hypotheses hold concretely and the
theorem yields that the attacker seat still holds `a` after the take. -/
theorem endRoundTake_roles_witness :
    (gTakeW.phase = .playing ∧ gTakeW.active gTakeW.attackerId = true ∧
     gTakeW.active (nextActiveId gTakeW.order gTakeW.active gTakeW.defenderId) = true ∧
     (refillPhase (takePhase gTakeW)).deck ≠ []) ∧
    (endRoundTake gTakeW).attackerId = gTakeW.attackerId :=
  ⟨⟨by decide, by decide, by decide, by decide⟩,
   (endRoundTake_roles gTakeW (by decide) (by decide) (by decide) (by decide)).1⟩

/-! ## Deal lemmas -/

/-- `n` JS `pop()`s applied to a list. -/
def dropN : Nat → List Card → List Card
  | 0, l => l
  | n + 1, l => dropN n l.dropLast

theorem dealOne_snd (st : (String → List Card) × List Card) (pid : String) :
    (dealOne st pid).2 = st.2.dropLast := by
  unfold dealOne
  split <;> rfl

theorem dealRound_snd (os : List String) (st : (String → List Card) × List Card) :
    (dealRound os st).2 = dropN os.length st.2 := by
  induction os generalizing st with
  | nil => rfl
  | cons p os ih =>
    show (dealRound os (dealOne st p)).2 = _
    rw [ih, dealOne_snd]
    rfl

theorem dropN_dropN (a b : Nat) (l : List Card) :
    dropN a (dropN b l) = dropN (a + b) l := by
  induction b generalizing l with
  | zero => rfl
  | succ b ih =>
    show dropN a (dropN b l.dropLast) = _
    rw [ih]
    rfl

theorem dealRounds_snd (k : Nat) (os : List String)
    (st : (String → List Card) × List Card) :
    (dealRounds k os st).2 = dropN (k * os.length) st.2 := by
  induction k generalizing st with
  | zero => rw [Nat.zero_mul]; rfl
  | succ k ih =>
    show (dealRounds k os (dealRound os st)).2 = _
    rw [ih, dealRound_snd, dropN_dropN, Nat.succ_mul]

theorem dropN_eq_take (n : Nat) (l : List Card) :
    dropN n l = l.take (l.length - n) := by
  induction n generalizing l with
  | zero => simp [dropN]
  | succ n ih =>
    show dropN n l.dropLast = _
    rw [ih, List.dropLast_eq_take, List.take_take, List.length_take]
    congr 1
    omega

theorem dealRound_hands (os : List String) (st : (String → List Card) × List Card)
    (hnd : os.Nodup) (hlen : os.length ≤ st.2.length) :
    (∀ pid ∈ os, ((dealRound os st).1 pid).length = (st.1 pid).length + 1) ∧
    (∀ pid, pid ∉ os → (dealRound os st).1 pid = st.1 pid) := by
  induction os generalizing st with
  | nil => exact ⟨by simp, fun _ _ => rfl⟩
  | cons p os ih =>
    have hne : st.2 ≠ [] := by
      intro h
      rw [h] at hlen
      simp at hlen
    obtain ⟨c, hc⟩ : ∃ c, st.2.getLast? = some c := by
      cases h : st.2.getLast? with
      | none => exact absurd ((List.getLast?_eq_none_iff).mp h) hne
      | some c => exact ⟨c, rfl⟩
    have hstep : dealOne st p =
        (Function.update st.1 p (st.1 p ++ [c]), st.2.dropLast) := by
      unfold dealOne
      rw [hc]
    have hlen2 : os.length ≤ (dealOne st p).2.length := by
      rw [dealOne_snd]
      simp only [List.length_cons] at hlen
      simp only [List.length_dropLast]
      omega
    have hp : p ∉ os := (List.nodup_cons.mp hnd).1
    obtain ⟨ih1, ih2⟩ := ih (dealOne st p) (List.nodup_cons.mp hnd).2 hlen2
    constructor
    · intro pid hpid
      rcases List.mem_cons.mp hpid with rfl | hmem
      · have hkeep : (dealRound (pid :: os) st).1 pid = (dealOne st pid).1 pid := by
          show (dealRound os (dealOne st pid)).1 pid = _
          exact ih2 pid hp
        rw [hkeep, hstep]
        simp
      · have h1 := ih1 pid hmem
        show ((dealRound os (dealOne st p)).1 pid).length = _
        rw [h1, hstep]
        have hne1 : pid ≠ p := fun h => hp (h ▸ hmem)
        simp [Function.update_noteq hne1]
    · intro pid hpid
      have hne1 : pid ≠ p := fun h => hpid (h ▸ List.mem_cons_self p os)
      have hne2 : pid ∉ os := fun h => hpid (List.mem_cons_of_mem _ h)
      show (dealRound os (dealOne st p)).1 pid = st.1 pid
      rw [ih2 pid hne2, hstep]
      simp [Function.update_noteq hne1]

theorem dealRounds_hands (k : Nat) (os : List String)
    (st : (String → List Card) × List Card) (hnd : os.Nodup)
    (hlen : k * os.length ≤ st.2.length) :
    (∀ pid ∈ os, ((dealRounds k os st).1 pid).length = (st.1 pid).length + k) ∧
    (∀ pid, pid ∉ os → (dealRounds k os st).1 pid = st.1 pid) := by
  induction k generalizing st with
  | zero => exact ⟨fun _ _ => rfl, fun _ _ => rfl⟩
  | succ k ih =>
    rw [Nat.succ_mul] at hlen
    have hlen1 : os.length ≤ st.2.length := by omega
    obtain ⟨hR1, hR2⟩ := dealRound_hands os st hnd hlen1
    have hlen2 : k * os.length ≤ (dealRound os st).2.length := by
      rw [dealRound_snd, dropN_eq_take, List.length_take]
      omega
    obtain ⟨ih1, ih2⟩ := ih (dealRound os st) hlen2
    constructor
    · intro pid hpid
      show ((dealRounds k os (dealRound os st)).1 pid).length = _
      rw [ih1 pid hpid, hR1 pid hpid]
      omega
    · intro pid hpid
      show (dealRounds k os (dealRound os st)).1 pid = _
      rw [ih2 pid hpid, hR2 pid hpid]

theorem length_insertCard (c : Card) (l : List Card) :
    (insertCard c l).length = l.length + 1 := by
  induction l with
  | nil => rfl
  | cons x xs ih =>
    unfold insertCard
    split
    · simp
    · simp [ih]

theorem length_sortHand (l : List Card) : (sortHand l).length = l.length := by
  induction l with
  | nil => rfl
  | cons x xs ih =>
    show (insertCard x (sortHand xs)).length = _
    rw [length_insertCard, ih]
    rfl

theorem parseCard_isSome_of_mem_createDeck (ds : Nat) (c : Card)
    (h : c ∈ createDeck ds) : (parseCard c).isSome = true := by
  revert h
  unfold createDeck
  by_cases h24 : ds = 24
  · rw [if_pos h24]
    revert c
    decide
  · rw [if_neg h24]
    revert c
    decide

theorem head?_take_of_pos (l : List Card) (k : Nat) (h : 0 < k) :
    (l.take k).head? = l.head? := by
  cases l with
  | nil => simp
  | cons a t =>
    cases k with
    | zero => omega
    | succ k => simp

theorem mem_of_head?_eq (l : List Card) (a : Card) (h : l.head? = some a) :
    a ∈ l := by
  cases l with
  | nil => simp at h
  | cons b t =>
    simp at h
    simp [h]

/-- `initGame` on a non-empty deck with a parsable bottom card reduces to
its dealt state. -/
theorem initGame_cons (cfg : RoomConfig) (players : List String) (c0 : Card)
    (rest : List Card) (pc : ParsedCard) (hpc : parseCard c0 = some pc) :
    initGame cfg players (c0 :: rest) =
      some { config := cfg, phase := .playing,
             order := players.take cfg.maxPlayers,
             active := fun id => (players.take cfg.maxPlayers).contains id,
             deck := (dealHands (players.take cfg.maxPlayers) (c0 :: rest)).2,
             trumpSuit := pc.suit, trumpCard := c0,
             hands := sortedHands (players.take cfg.maxPlayers) (c0 :: rest),
             table := [], discard := [],
             attackerId := firstAttacker (players.take cfg.maxPlayers)
               (sortedHands (players.take cfg.maxPlayers) (c0 :: rest)) pc.suit,
             defenderId := nextActiveId (players.take cfg.maxPlayers)
               (fun id => (players.take cfg.maxPlayers).contains id)
               (firstAttacker (players.take cfg.maxPlayers)
                 (sortedHands (players.take cfg.maxPlayers) (c0 :: rest)) pc.suit),
             roundLimit := (sortedHands (players.take cfg.maxPlayers) (c0 :: rest)
               (nextActiveId (players.take cfg.maxPlayers)
                 (fun id => (players.take cfg.maxPlayers).contains id)
                 (firstAttacker (players.take cfg.maxPlayers)
                   (sortedHands (players.take cfg.maxPlayers) (c0 :: rest)) pc.suit))).length,
             passed := [], takeDeclared := false, loser := none } := by
  simp only [initGame]
  rw [hpc]

/-- C5 amended: whenever the deal does not consume the whole deck
(`6·players < deckSize`, which holds for every size/count combination
except 24 cards with 4 players), every seated player ends with exactly 6
cards, the bottom card of the shuffled deck is the trump card, it is still
in the deck as its first element (the last one `pop` can reach), and the
trump suit is its suit. -/
theorem initGame_deal (cfg : RoomConfig) (players : List String) (shuffled : List Card)
    (hnd : (players.take cfg.maxPlayers).Nodup)
    (hperm : shuffled.Perm (createDeck cfg.deckSize))
    (hroom : 6 * (players.take cfg.maxPlayers).length < shuffled.length) :
    (initGame cfg players shuffled).isSome = true ∧
    (∀ pid ∈ players.take cfg.maxPlayers,
      (((initGame cfg players shuffled).getD emptyGame).hands pid).length = 6) ∧
    ((initGame cfg players shuffled).getD emptyGame).deck.head? =
      some ((initGame cfg players shuffled).getD emptyGame).trumpCard ∧
    ((initGame cfg players shuffled).getD emptyGame).trumpCard ∈
      ((initGame cfg players shuffled).getD emptyGame).deck ∧
    (∃ p, parseCard ((initGame cfg players shuffled).getD emptyGame).trumpCard = some p ∧
      ((initGame cfg players shuffled).getD emptyGame).trumpSuit = p.suit) := by
  cases shuffled with
  | nil =>
    simp only [List.length_nil] at hroom
    omega
  | cons c0 rest =>
    have hc0mem : c0 ∈ createDeck cfg.deckSize :=
      hperm.mem_iff.mp (List.mem_cons_self c0 rest)
    obtain ⟨pc, hpc⟩ : ∃ pc, parseCard c0 = some pc :=
      Option.isSome_iff_exists.mp (parseCard_isSome_of_mem_createDeck _ _ hc0mem)
    have hdealt := dealRounds_hands 6 (players.take cfg.maxPlayers)
      (fun _ => [], c0 :: rest) hnd
      (by
        show 6 * (players.take cfg.maxPlayers).length ≤ (c0 :: rest).length
        omega)
    have hdeck : (dealHands (players.take cfg.maxPlayers) (c0 :: rest)).2 =
        (c0 :: rest).take ((c0 :: rest).length -
          6 * (players.take cfg.maxPlayers).length) := by
      show (dealRounds 6 (players.take cfg.maxPlayers)
        (fun _ => [], c0 :: rest)).2 = _
      rw [dealRounds_snd, dropN_eq_take]
    have hdhead : (dealHands (players.take cfg.maxPlayers) (c0 :: rest)).2.head? =
        some c0 := by
      rw [hdeck, head?_take_of_pos]
      · rfl
      · simp only [List.length_cons]
        simp only [List.length_cons] at hroom
        omega
    rw [initGame_cons cfg players c0 rest pc hpc]
    simp only [Option.getD_some, Option.isSome_some, true_and]
    refine ⟨?_, ?_, ?_, ?_⟩
    · intro pid hpid
      have hcont : (players.take cfg.maxPlayers).contains pid = true :=
        List.elem_iff.mpr hpid
      show (sortedHands (players.take cfg.maxPlayers) (c0 :: rest) pid).length = 6
      unfold sortedHands
      rw [hcont]
      simp only [if_true, length_sortHand]
      show ((dealRounds 6 (players.take cfg.maxPlayers)
        (fun _ => [], c0 :: rest)).1 pid).length = 6
      rw [hdealt.1 pid hpid]
      rfl
    · exact hdhead
    · exact mem_of_head?_eq _ _ hdhead
    · exact ⟨pc, hpc, rfl⟩

/-- C5 amended witness: the 36-deck 2-player combination. -/
theorem initGame_deal_witness :
    ((["a", "b"] : List String).take cfgP2.maxPlayers).Nodup ∧
    6 * ((["a", "b"] : List String).take cfgP2.maxPlayers).length <
      (createDeck 36).length ∧
    (initGame cfgP2 ["a", "b"] (createDeck 36)).isSome = true :=
  ⟨by decide, by decide,
   (initGame_deal cfgP2 ["a", "b"] (createDeck 36) (by decide)
     (List.Perm.refl _) (by decide)).1⟩

/-- C6: every gameplay event either fails — producing exactly one typed
ERROR effect addressed to the sender, with the state returned untouched
and no persist — or succeeds with exactly the persist-and-broadcast
effect pair (and no error frame to anyone). -/
theorem error_frames_inert (g : GameState) (e : Ev) :
    ((∃ c, (step g e).effects = [Effect.errTo e.pid c]) ∧ (step g e).g = g) ∨
    (step g e).effects = [Effect.persistEff, Effect.broadcastEff] := by
  cases e <;>
    simp only [step, onAttack, onDefend, onTransfer, onTake, onPass, onBeat] <;>
    repeat' first
      | exact Or.inl ⟨⟨_, rfl⟩, rfl⟩
      | exact Or.inr rfl
      | split

/-- C10: a legal TAKE sets `takeDeclared`, clears `passed` (so nobody
counts as having passed any more), and changes no other state field; and
as long as not every attacker is in `passed`, a PASS does not resolve the
round — the table stays as it is. -/
theorem take_sets_flag_only :
    (∀ g pid, g.phase = .playing → pid = g.defenderId → g.table ≠ [] →
      (onTake g pid).effects = [Effect.persistEff, Effect.broadcastEff] ∧
      (onTake g pid).g.takeDeclared = true ∧
      (onTake g pid).g.passed = [] ∧
      (onTake g pid).g.hands = g.hands ∧
      (onTake g pid).g.table = g.table ∧
      (onTake g pid).g.deck = g.deck ∧
      (onTake g pid).g.discard = g.discard ∧
      (onTake g pid).g.attackerId = g.attackerId ∧
      (onTake g pid).g.defenderId = g.defenderId ∧
      (onTake g pid).g.roundLimit = g.roundLimit ∧
      (onTake g pid).g.order = g.order ∧
      (onTake g pid).g.active = g.active ∧
      (onTake g pid).g.phase = g.phase ∧
      (onTake g pid).g.config = g.config ∧
      (onTake g pid).g.trumpSuit = g.trumpSuit ∧
      (onTake g pid).g.trumpCard = g.trumpCard ∧
      (onTake g pid).g.loser = g.loser ∧
      (∀ a : String, a ∉ (onTake g pid).g.passed)) ∧
    (∀ g pid, g.phase = .playing → pid ≠ g.defenderId → g.table ≠ [] →
      ¬(g.takeDeclared = true ∧
        ∀ x ∈ listAttackers g.order g.active g.defenderId,
          x ∈ (if pid ∈ g.passed then g.passed else g.passed ++ [pid])) →
      (onPass g pid).g.table = g.table ∧ (onPass g pid).g.phase = g.phase) := by
  constructor
  · intro g pid hphase hdef htab
    have hne : g.table.isEmpty = false := by
      cases h : g.table with
      | nil => exact absurd h htab
      | cons a l => simp [List.isEmpty]
    have hstep : onTake g pid = okOut { g with takeDeclared := true, passed := [] } := by
      unfold onTake
      rw [hphase, hdef]
      simp [hne]
    rw [hstep]
    refine ⟨rfl, rfl, rfl, rfl, rfl, rfl, rfl, rfl, rfl, rfl, rfl, rfl, rfl,
      rfl, rfl, rfl, rfl, ?_⟩
    intro a ha
    simp [okOut] at ha
  · intro g pid hphase hdef htab hcond
    have hne : g.table.isEmpty = false := by
      cases h : g.table with
      | nil => exact absurd h htab
      | cons a l => simp [List.isEmpty]
    have hstep : (onPass g pid).g =
        { g with passed := if pid ∈ g.passed then g.passed
                           else g.passed ++ [pid] } := by
      unfold onPass
      rw [hphase]
      simp [hdef, hne]
      rw [if_neg hcond]
      rfl
    rw [hstep]
    exact ⟨rfl, rfl⟩

/-- C10 witness: on the 2-player position after the opening attack, `b`'s
TAKE sets the flag, and `a`'s PASS before re-passing does not resolve. -/
theorem take_sets_flag_only_witness :
    (gMid2.phase = .playing ∧ ("b" : String) = gMid2.defenderId ∧ gMid2.table ≠ []) ∧
    (onTake gMid2 "b").g.takeDeclared = true ∧
    (onPass gMid2 "a").g.table = gMid2.table :=
  ⟨⟨by decide, by decide, by decide⟩,
   (take_sets_flag_only.1 gMid2 "b" (by decide) (by decide) (by decide)).2.1,
   (take_sets_flag_only.2 gMid2 "a" (by decide) (by decide) (by decide) (by decide)).1⟩

/-- C8: noninterference of the per-player view — replacing some other
player `q`'s hand by any hand of the same size, or replacing the deck by
any permutation of it, produces the identical view for `p`: other hands
reach the view only as counts, the deck only as its size. -/
theorem view_privacy :
    (∀ (g : GameState) (p q : String) (h2 : String → List Card),
      q ≠ p →
      (∀ id, id ≠ q → h2 id = g.hands id) →
      (h2 q).length = (g.hands q).length →
      buildStateFor { g with hands := h2 } p = buildStateFor g p) ∧
    (∀ (g : GameState) (p : String) (d2 : List Card),
      d2.Perm g.deck →
      buildStateFor { g with deck := d2 } p = buildStateFor g p) := by
  constructor
  · intro g p q h2 hqp hh hlen
    have hyou : h2 p = g.hands p := hh p (Ne.symm hqp)
    unfold buildStateFor
    dsimp only
    rw [hyou]
    simp only [StateView.mk.injEq, true_and, and_true]
    refine List.map_congr_left fun id _ => ?_
    by_cases hq : id = q
    · subst hq
      rw [OtherView.mk.injEq]
      exact ⟨rfl, rfl, hlen⟩
    · rw [hh id hq]
  · intro g p d2 hperm
    unfold buildStateFor
    dsimp only
    simp only [StateView.mk.injEq, true_and, and_true]
    exact hperm.length_eq

/-- C8 witness: on the 2-player position, swapping `b`'s hand for six
different cards, or reversing the deck, leaves `a`'s view unchanged. -/
theorem view_privacy_witness :
    (("b" : String) ≠ "a" ∧
     (Function.update gMid2.hands "b"
       ["S7", "S8", "S9", "S10", "SJ", "SQ"] "b").length =
       (gMid2.hands "b").length) ∧
    buildStateFor
      { gMid2 with hands := (Function.update gMid2.hands "b"
          ["S7", "S8", "S9", "S10", "SJ", "SQ"]) } "a" =
      buildStateFor gMid2 "a" ∧
    buildStateFor { gMid2 with deck := gMid2.deck.reverse } "a" =
      buildStateFor gMid2 "a" :=
  ⟨⟨by decide, by decide⟩,
   view_privacy.1 gMid2 "a" "b" _ (by decide)
     (fun id hid => Function.update_noteq hid _ _) (by decide),
   view_privacy.2 gMid2 "a" _ (List.reverse_perm _)⟩

/-! ## Session-token lemmas -/

theorem splitOnDot_ne_nil (l : List Char) : splitOnDot l ≠ [] := by
  cases l with
  | nil => simp [splitOnDot]
  | cons c cs =>
    have key : splitOnDot (c :: cs) =
        match splitOnDot cs with
        | [] => [[]]
        | cur :: parts =>
          if c = '.' then [] :: cur :: parts else (c :: cur) :: parts := rfl
    rw [key]
    cases h : splitOnDot cs with
    | nil => simp
    | cons cur parts =>
      by_cases hc : c = '.' <;> simp [hc]

theorem splitOnDot_no_dot (l : List Char) (h : '.' ∉ l) : splitOnDot l = [l] := by
  induction l with
  | nil => rfl
  | cons c cs ih =>
    have hc : c ≠ '.' := fun hh => h (hh ▸ List.mem_cons_self _ _)
    have hcs : '.' ∉ cs := fun hh => h (List.mem_cons_of_mem _ hh)
    unfold splitOnDot
    rw [ih hcs]
    simp [hc]

theorem splitOnDot_append (xs ys : List Char) (hx : '.' ∉ xs) :
    splitOnDot (xs ++ '.' :: ys) = xs :: splitOnDot ys := by
  induction xs with
  | nil =>
    have key : splitOnDot ('.' :: ys) =
        match splitOnDot ys with
        | [] => [[]]
        | cur :: parts =>
          if ('.' : Char) = '.' then [] :: cur :: parts else ('.' :: cur) :: parts := rfl
    show splitOnDot ('.' :: ys) = [] :: splitOnDot ys
    rw [key]
    cases h : splitOnDot ys with
    | nil => exact absurd h (splitOnDot_ne_nil ys)
    | cons cur parts => simp
  | cons c cs ih =>
    have hc : c ≠ '.' := fun hh => hx (hh ▸ List.mem_cons_self _ _)
    have hcs : '.' ∉ cs := fun hh => hx (List.mem_cons_of_mem _ hh)
    have key : splitOnDot (c :: (cs ++ '.' :: ys)) =
        match splitOnDot (cs ++ '.' :: ys) with
        | [] => [[]]
        | cur :: parts =>
          if c = '.' then [] :: cur :: parts else (c :: cur) :: parts := rfl
    show splitOnDot (c :: (cs ++ '.' :: ys)) = (c :: cs) :: splitOnDot ys
    rw [key, ih hcs]
    simp [hc]

/-- C9 amended: mint-then-verify.  `verifySession` alone recomputes the MAC
and returns the payload with no expiry check at all; composed with the
expiry guard its callers apply, the payload comes back exactly when
`¬ exp < now`, i.e. `now ≤ exp` — the boundary `exp = now` is accepted.
The hypotheses say the body/signature encodings are dot-free and that the
external decode pipeline inverts the encode pipeline. -/
theorem session_verify (enc : SessionPayload → List Char)
    (dec : List Char → Option SessionPayload)
    (hmacHex : List Char → List Char → List Char)
    (appSecret : List Char) (p : SessionPayload) (now : Nat)
    (hdec : dec (enc p) = some p)
    (hbody : '.' ∉ enc p)
    (hsig : '.' ∉ hmacHex appSecret (enc p))
    (hsecret : appSecret ≠ []) :
    verifySession dec hmacHex (signSession enc hmacHex appSecret p) appSecret = some p ∧
    (verifySessionChecked dec hmacHex (signSession enc hmacHex appSecret p)
        appSecret now = some p ↔ ¬ p.exp < now) := by
  have htok : signSession enc hmacHex appSecret p ≠ [] := by
    unfold signSession
    simp
  have hsplit : splitOnDot (signSession enc hmacHex appSecret p) =
      [enc p, hmacHex appSecret (enc p)] := by
    unfold signSession
    rw [splitOnDot_append _ _ hbody, splitOnDot_no_dot _ hsig]
  have hver : verifySession dec hmacHex (signSession enc hmacHex appSecret p)
      appSecret = some p := by
    unfold verifySession
    rw [if_neg (by simp [htok, hsecret])]
    rw [hsplit]
    simp [hdec]
  refine ⟨hver, ?_⟩
  unfold verifySessionChecked
  rw [hver]
  by_cases h : p.exp < now
  · simp [h]
  · simp [h]

/-- Demonstration payload and pipeline instances for concrete evaluation of
the session functions (`hmacHex`, `enc`, `dec` are external platform
pipelines, so any deterministic instances exercise the repository's code). -/
def pA : SessionPayload := ⟨['1'], [], [], 0, 100⟩

def encA : SessionPayload → List Char := fun _ => ['u']

def decA : List Char → Option SessionPayload :=
  fun s => if s = ['u'] then some pA else none

def hmacA : List Char → List Char → List Char := fun _ _ => ['h']

/-- C9 counterexample: at `now = exp` (token not "not expired" in the
claim's strict `exp > now` sense) the verification flow still returns the
payload, and bare `verifySession` — the cited symbol — returns it with no
expiry check at all. -/
theorem session_expiry_boundary :
    verifySessionChecked decA hmacA (signSession encA hmacA ['k'] pA)
      ['k'] 100 = some pA ∧
    ¬ (100 < pA.exp) ∧
    verifySession decA hmacA (signSession encA hmacA ['k'] pA) ['k'] = some pA :=
  ⟨by decide, by decide, by decide⟩

/-- C9 amended witness: the concrete pipeline satisfies the hypotheses and
the theorem returns the payload at `now = 0 ≤ exp`. -/
theorem session_verify_witness :
    (decA (encA pA) = some pA ∧ ('.' : Char) ∉ encA pA ∧
     ('.' : Char) ∉ hmacA ['k'] (encA pA) ∧ (['k'] : List Char) ≠ []) ∧
    verifySession decA hmacA (signSession encA hmacA ['k'] pA) ['k'] = some pA :=
  ⟨⟨by decide, by decide, by decide, by decide⟩,
   (session_verify encA decA hmacA ['k'] pA 0 (by decide) (by decide)
     (by decide) (by decide)).1⟩

/-! ## Socket-table behaviour of JOIN -/

/-- C7 amended: a JOIN with a valid, unexpired session re-attaches the id
on the joining socket only; no socket is closed (in particular no
"replaced" close), every other socket keeps its entry, the joining socket
gets a STATE frame, and every previously attached socket stays in the
table — so frames arriving on an older socket of the same player are still
admitted to the game handlers. -/
theorem join_replaces_attachment_only (verify : List Char → Option SessionPayload)
    (now : Nat) (conn : SockTable) (ws : SockId) (token : List Char)
    (session : SessionPayload)
    (hv : verify token = some session)
    (hexp : ¬ session.exp < now) :
    (handleJoin true verify now conn ws token).1 =
      conn.map (fun s => if s.1 = ws then (s.1, some (String.mk session.tg_id)) else s) ∧
    (∀ sid reason, WsEffect.closeSock sid reason ∉
      (handleJoin true verify now conn ws token).2) ∧
    WsEffect.sendState ws ∈ (handleJoin true verify now conn ws token).2 ∧
    (∀ s ∈ conn, s.1 ≠ ws → s ∈ (handleJoin true verify now conn ws token).1) := by
  have hstep : handleJoin true verify now conn ws token =
      (conn.map (fun s => if s.1 = ws then (s.1, some (String.mk session.tg_id)) else s),
       .sendState ws ::
         (conn.map (fun s => if s.1 = ws then (s.1, some (String.mk session.tg_id))
            else s)).filterMap (fun s =>
              match s.2 with
              | some _ => some (WsEffect.sendState s.1)
              | none => none)) := by
    unfold handleJoin
    rw [hv]
    simp [hexp]
  rw [hstep]
  refine ⟨rfl, ?_, List.mem_cons_self _ _, ?_⟩
  · intro sid reason hmem
    rcases List.mem_cons.mp hmem with h | h
    · exact WsEffect.noConfusion h
    · obtain ⟨s, _, heq⟩ := List.mem_filterMap.mp h
      cases hs2 : s.2 with
      | some t =>
        rw [hs2] at heq
        simp at heq
      | none =>
        rw [hs2] at heq
        simp at heq
  · intro s hs hne
    exact List.mem_map.mpr ⟨s, hs, by simp [hne]⟩

/-- A second demonstration pipeline whose payload carries player id `u`. -/
def pU : SessionPayload := ⟨['u'], [], [], 0, 100⟩

def encU : SessionPayload → List Char := fun _ => ['t']

def decU : List Char → Option SessionPayload :=
  fun s => if s = ['t'] then some pU else none

def hmacU : List Char → List Char → List Char := fun _ _ => ['m']

/-- The JOIN-time session check with the demonstration pipeline. -/
def verifyU : List Char → Option SessionPayload :=
  fun t => verifySession decU hmacU t ['k']

/-- A socket table where socket 1 is already registered for player `u` and
socket 2 is freshly accepted. -/
def connU : SockTable := [(1, some "u"), (2, none)]

def tokU : List Char := signSession encU hmacU ['k'] pU

def joinRes : SockTable × List WsEffect := handleJoin true verifyU 50 connU 2 tokU

/-- C7 counterexample: player `u` already has socket 1 registered and JOINs
again on socket 2 with a valid session — the old socket is not closed (no
close effect at all, so no close with reason "replaced"), both sockets end
up attached to `u` and both receive STATE, and a later game frame on the
old socket is still admitted under `u` rather than dying with `NOT_JOINED`. -/
theorem second_join_no_replacement :
    verifyU tokU = some pU ∧
    joinRes.1 = [(1, some "u"), (2, some "u")] ∧
    (joinRes.2.all fun e =>
      match e with
      | .closeSock _ _ => false
      | _ => true) = true ∧
    WsEffect.sendState 1 ∈ joinRes.2 ∧
    WsEffect.sendState 2 ∈ joinRes.2 ∧
    gameFrameAdmits joinRes.1 1 = some "u" :=
  ⟨by decide, by decide, by decide, by decide, by decide, by decide⟩

/-- C7 amended witness: the demonstration JOIN satisfies the hypotheses and
the theorem delivers the STATE frame to the joining socket. -/
theorem join_replaces_attachment_only_witness :
    (verifyU tokU = some pU ∧ ¬ pU.exp < 50) ∧
    WsEffect.sendState 2 ∈ (handleJoin true verifyU 50 connU 2 tokU).2 :=
  ⟨⟨by decide, by decide⟩,
   (join_replaces_attachment_only verifyU 50 connU 2 tokU pU (by decide)
     (by decide)).2.2.1⟩

/-! ## Card conservation -/

/-- All cards on the table, as a multiset. -/
def tableMulti (t : List TablePair) : Multiset Card :=
  (t.flatMap pairCards : List Card)

/-- All cards in seated players' hands, as a multiset. -/
def handsMulti (g : GameState) : Multiset Card :=
  ((g.order.map g.hands).flatten : List Card)

/-- Every card a `GameState` accounts for: deck, discard, table, hands. -/
def cardsOf (g : GameState) : Multiset Card :=
  (g.deck : Multiset Card) + (g.discard : Multiset Card) + tableMulti g.table +
    handsMulti g

/-- Structural well-formedness maintained by every transition: seats are
seated, the seating order is duplicate-free and non-empty, and unseated
ids have no cards. -/
structure WF (g : GameState) : Prop where
  orderNe : g.order ≠ []
  nodup : g.order.Nodup
  atkMem : g.attackerId ∈ g.order
  defMem : g.defenderId ∈ g.order
  handsOut : ∀ pid, pid ∉ g.order → g.hands pid = []

theorem coe_append_cards (l₁ l₂ : List Card) :
    ((l₁ ++ l₂ : List Card) : Multiset Card) =
      (l₁ : Multiset Card) + (l₂ : Multiset Card) :=
  (Multiset.coe_add l₁ l₂).symm

theorem erase_add_singleton (l : List Card) (a : Card) (h : a ∈ l) :
    ((l.erase a : List Card) : Multiset Card) + {a} = (l : Multiset Card) := by
  have hp := Multiset.coe_eq_coe.mpr (List.perm_cons_erase h)
  rw [hp, ← Multiset.cons_coe, ← Multiset.singleton_add]
  exact add_comm _ _

theorem nextActiveId_mem (order : List String) (active : String → Bool)
    (fromId : String) (hne : order ≠ []) (hmem : fromId ∈ order) :
    nextActiveId order active fromId ∈ order := by
  unfold nextActiveId
  split
  · cases order with
    | nil => exact absurd rfl hne
    | cons a l => exact List.mem_cons_self a l
  · next start hidx =>
    have key : ∀ res : Option String,
        (∀ id, res = some id → id ∈ order) → res.getD fromId ∈ order := by
      intro res h
      cases res with
      | none => exact hmem
      | some id => exact h id rfl
    apply key
    intro id hf
    obtain ⟨k0, _, heq⟩ := List.exists_of_findSome?_eq_some hf
    dsimp only at heq
    cases hg : order[(start + k0 + 1) % order.length]? with
    | none =>
      rw [hg] at heq
      simp at heq
    | some cand =>
      rw [hg] at heq
      by_cases ha : active cand = true <;> simp [ha] at heq
      exact heq ▸ List.getElem?_mem hg

theorem handsJoin_update (order : List String) (hands : String → List Card)
    (pid : String) (h' : List Card) (hnd : order.Nodup) (hmem : pid ∈ order) :
    ((order.map (Function.update hands pid h')).flatten : Multiset Card) +
        (hands pid : Multiset Card) =
      ((order.map hands).flatten : Multiset Card) + (h' : Multiset Card) := by
  induction order with
  | nil => cases hmem
  | cons a os ih =>
    rcases List.mem_cons.mp hmem with rfl | hmem'
    · have ha : pid ∉ os := (List.nodup_cons.mp hnd).1
      have hmap : os.map (Function.update hands pid h') = os.map hands :=
        List.map_congr_left fun x hx =>
          Function.update_noteq (fun he => ha (by rw [← he]; exact hx)) _ _
      simp only [List.map_cons, List.flatten_cons, hmap, Function.update_same]
      rw [coe_append_cards, coe_append_cards]
      abel
    · have hne1 : pid ≠ a := by
        intro he
        exact (List.nodup_cons.mp hnd).1 (he ▸ hmem')
      have ihh := ih (List.nodup_cons.mp hnd).2 hmem'
      simp only [List.map_cons, List.flatten_cons, Function.update_noteq (Ne.symm hne1)]
      rw [coe_append_cards, coe_append_cards, add_assoc, add_assoc, ihh]

theorem insertCard_perm (c : Card) (l : List Card) :
    (insertCard c l).Perm (c :: l) := by
  induction l with
  | nil => exact List.Perm.refl _
  | cons x xs ih =>
    unfold insertCard
    split
    · exact List.Perm.refl _
    · exact (ih.cons x).trans (List.Perm.swap c x xs)

theorem sortHand_perm (l : List Card) : (sortHand l).Perm l := by
  induction l with
  | nil => exact List.Perm.refl _
  | cons x xs ih =>
    exact (insertCard_perm x (sortHand xs)).trans (ih.cons x)

theorem sortHand_cards (l : List Card) :
    ((sortHand l : List Card) : Multiset Card) = (l : Multiset Card) :=
  Multiset.coe_eq_coe.mpr (sortHand_perm l)

theorem drawLoop_cards (fuel : Nat) (hand deck : List Card) :
    (((drawLoop fuel hand deck).1 : List Card) : Multiset Card) +
        ((drawLoop fuel hand deck).2 : Multiset Card) =
      (hand : Multiset Card) + (deck : Multiset Card) := by
  induction fuel generalizing hand deck with
  | zero => rfl
  | succ fuel ih =>
    unfold drawLoop
    split
    · next h =>
      rw [ih]
      have hd : deck.dropLast ++ [deck.getLast h.2] = deck :=
        List.dropLast_append_getLast h.2
      conv_rhs => rw [← hd]
      rw [coe_append_cards, coe_append_cards]
      abel
    · rfl

theorem drawUpTo6_split (hands : String → List Card) (deck : List Card)
    (p : String) (ds : List String) :
    drawUpTo6 hands deck (p :: ds) =
      drawUpTo6
        (Function.update hands p (sortHand (drawLoop deck.length (hands p) deck).1))
        (drawLoop deck.length (hands p) deck).2 ds := rfl

theorem drawUpTo6_cards (order : List String) (hnd : order.Nodup)
    (dOrd : List String) (hands : String → List Card) (deck : List Card)
    (hsub : ∀ pid ∈ dOrd, pid ∈ order) :
    (((order.map (drawUpTo6 hands deck dOrd).1).flatten : List Card) : Multiset Card) +
        ((drawUpTo6 hands deck dOrd).2 : Multiset Card) =
      (((order.map hands).flatten : List Card) : Multiset Card) +
        (deck : Multiset Card) ∧
    (∀ pid, pid ∉ order → (drawUpTo6 hands deck dOrd).1 pid = hands pid) := by
  induction dOrd generalizing hands deck with
  | nil => exact ⟨rfl, fun _ _ => rfl⟩
  | cons p ds ih =>
    have hp : p ∈ order := hsub p (List.mem_cons_self _ _)
    rw [drawUpTo6_split]
    obtain ⟨ih1, ih2⟩ := ih
      (Function.update hands p (sortHand (drawLoop deck.length (hands p) deck).1))
      (drawLoop deck.length (hands p) deck).2
      (fun pid hpid => hsub pid (List.mem_cons_of_mem _ hpid))
    constructor
    · rw [ih1]
      have hupd := handsJoin_update order hands p
        (sortHand (drawLoop deck.length (hands p) deck).1) hnd hp
      have hdl := drawLoop_cards deck.length (hands p) deck
      rw [sortHand_cards] at hupd
      have key : (((order.map (Function.update hands p
          (sortHand (drawLoop deck.length (hands p) deck).1))).flatten : List Card) :
            Multiset Card) +
          ((drawLoop deck.length (hands p) deck).2 : Multiset Card) +
          ((hands p : List Card) : Multiset Card) =
          (((order.map hands).flatten : List Card) : Multiset Card) +
          (deck : Multiset Card) + ((hands p : List Card) : Multiset Card) := by
        calc (((order.map (Function.update hands p
            (sortHand (drawLoop deck.length (hands p) deck).1))).flatten : List Card) :
              Multiset Card) +
            ((drawLoop deck.length (hands p) deck).2 : Multiset Card) +
            ((hands p : List Card) : Multiset Card)
            = (((order.map (Function.update hands p
                (sortHand (drawLoop deck.length (hands p) deck).1))).flatten : List Card) :
                  Multiset Card) +
              ((hands p : List Card) : Multiset Card) +
              ((drawLoop deck.length (hands p) deck).2 : Multiset Card) := by abel
          _ = (((order.map hands).flatten : List Card) : Multiset Card) +
              (((drawLoop deck.length (hands p) deck).1 : List Card) : Multiset Card) +
              ((drawLoop deck.length (hands p) deck).2 : Multiset Card) := by rw [hupd]
          _ = (((order.map hands).flatten : List Card) : Multiset Card) +
              ((((drawLoop deck.length (hands p) deck).1 : List Card) : Multiset Card) +
               ((drawLoop deck.length (hands p) deck).2 : Multiset Card)) := by abel
          _ = (((order.map hands).flatten : List Card) : Multiset Card) +
              ((hands p : Multiset Card) + (deck : Multiset Card)) := by rw [hdl]
          _ = (((order.map hands).flatten : List Card) : Multiset Card) +
              (deck : Multiset Card) + ((hands p : List Card) : Multiset Card) := by abel
      exact add_right_cancel key
    · intro pid hpid
      rw [ih2 pid hpid]
      exact Function.update_noteq (fun he => hpid (by rw [he]; exact hp)) _ _

theorem drawOrderLoop_mem (order : List String) (active : String → Bool)
    (defenderId : String) (fuel : Nat) (cur : String)
    (hne : order ≠ []) (hcur : cur ∈ order) :
    ∀ x ∈ drawOrderLoop order active defenderId fuel cur, x ∈ order := by
  induction fuel generalizing cur with
  | zero => intro x hx; cases hx
  | succ fuel ih =>
    intro x hx
    unfold drawOrderLoop at hx
    have hnxt : nextActiveId order active cur ∈ order :=
      nextActiveId_mem order active cur hne hcur
    by_cases hd : nextActiveId order active cur = defenderId
    · rw [if_pos hd] at hx
      obtain rfl : x = nextActiveId order active cur := by simpa using hx
      exact hnxt
    · rw [if_neg hd] at hx
      rcases List.mem_cons.mp hx with rfl | hx'
      · exact hnxt
      · exact ih (nextActiveId order active cur) hnxt x hx'

theorem buildDrawOrder_mem (g : GameState) (hne : g.order ≠ [])
    (hatk : g.attackerId ∈ g.order) :
    ∀ x ∈ buildDrawOrder g, x ∈ g.order := by
  intro x hx
  unfold buildDrawOrder at hx
  rcases List.mem_cons.mp hx with rfl | hx'
  · exact hatk
  · exact drawOrderLoop_mem g.order g.active g.defenderId _ g.attackerId hne hatk x hx'

theorem pruneOutPlayers_proj (g : GameState) :
    (pruneOutPlayers g).order = g.order ∧ (pruneOutPlayers g).deck = g.deck ∧
    (pruneOutPlayers g).discard = g.discard ∧
    (pruneOutPlayers g).table = g.table ∧
    (pruneOutPlayers g).hands = g.hands ∧
    (pruneOutPlayers g).attackerId = g.attackerId ∧
    (pruneOutPlayers g).defenderId = g.defenderId := by
  unfold pruneOutPlayers
  dsimp only
  repeat' first
    | split
    | exact ⟨rfl, rfl, rfl, rfl, rfl, rfl, rfl⟩

theorem cardsOf_pruneOutPlayers (g : GameState) :
    cardsOf (pruneOutPlayers g) = cardsOf g := by
  obtain ⟨h1, h2, h3, h4, h5, _, _⟩ := pruneOutPlayers_proj g
  unfold cardsOf handsMulti
  rw [h1, h2, h3, h4, h5]

theorem WF_pruneOutPlayers (g : GameState) (h : WF g) : WF (pruneOutPlayers g) := by
  obtain ⟨h1, _, _, _, h5, h6, h7⟩ := pruneOutPlayers_proj g
  exact ⟨h1 ▸ h.orderNe, h1 ▸ h.nodup, by rw [h6, h1]; exact h.atkMem,
    by rw [h7, h1]; exact h.defMem, fun pid hpid => by
      rw [h5]; exact h.handsOut pid (h1 ▸ hpid)⟩

theorem tableMulti_append_one (t : List TablePair) (p : TablePair) :
    tableMulti (t ++ [p]) = tableMulti t + ((pairCards p : List Card) : Multiset Card) := by
  unfold tableMulti
  rw [List.flatMap_append]
  rw [coe_append_cards]
  simp [List.flatMap]

theorem tableMulti_set (t : List TablePair) (i : Nat) (pair : TablePair) (card : Card)
    (hi : t[i]? = some pair) (hd : pair.d = none) :
    tableMulti (t.set i ⟨pair.a, some card⟩) = tableMulti t + {card} := by
  induction t generalizing i with
  | nil => simp at hi
  | cons q qs ih =>
    cases i with
    | zero =>
      have hq : q = pair := by simpa using hi
      have hd' : q.d = none := by rw [hq]; exact hd
      have hgoal : tableMulti (⟨pair.a, some card⟩ :: qs) =
          tableMulti (q :: qs) + {card} := by
        rw [← hq]
        have h1 : pairCards ⟨q.a, some card⟩ = [q.a, card] := rfl
        have h2 : pairCards q = [q.a] := by
          unfold pairCards
          rw [hd']
          rfl
        unfold tableMulti
        simp only [List.flatMap_cons, h1, h2]
        rw [coe_append_cards, coe_append_cards]
        have hx : (([q.a, card] : List Card) : Multiset Card) =
            (([q.a] : List Card) : Multiset Card) + {card} := rfl
        rw [hx]
        abel
      exact hgoal
    | succ i =>
      have hi' : qs[i]? = some pair := by simpa using hi
      show tableMulti (q :: qs.set i ⟨pair.a, some card⟩) = _
      unfold tableMulti
      simp only [List.flatMap_cons]
      rw [coe_append_cards, coe_append_cards]
      have := ih i hi'
      unfold tableMulti at this
      rw [this]
      abel

/-- Moving one card `c` between containers preserves the total: if the new
hand pool `H'` and the old hand `Hp` balance the old pool `H` plus the
erased hand `E`, and `E` plus `c` is `Hp`, then pool-with-`c`-on-the-table
equals the original. -/
theorem conserve_move (D T H' H Hp E : Multiset Card) (c : Card)
    (h1 : H' + Hp = H + E) (h2 : E + {c} = Hp) :
    D + (T + {c}) + H' = D + T + H := by
  have key : D + (T + {c}) + H' + Hp = D + T + H + Hp := by
    calc D + (T + {c}) + H' + Hp = D + T + {c} + (H' + Hp) := by abel
      _ = D + T + {c} + (H + E) := by rw [h1]
      _ = D + T + H + (E + {c}) := by abel
      _ = D + T + H + Hp := by rw [h2]
  exact add_right_cancel key

theorem mem_order_of_hand_ne (g : GameState) (hWF : WF g) (pid : String)
    (h : g.hands pid ≠ []) : pid ∈ g.order := by
  by_contra hout
  exact h (hWF.handsOut pid hout)

theorem WF_hands_update (g : GameState) (hWF : WF g) (pid : String)
    (h' : List Card) (hmem : pid ∈ g.order) (g' : GameState)
    (horder : g'.order = g.order) (hatk : g'.attackerId = g.attackerId)
    (hdef : g'.defenderId = g.defenderId)
    (hhands : g'.hands = Function.update g.hands pid h') : WF g' := by
  refine ⟨horder ▸ hWF.orderNe, horder ▸ hWF.nodup, ?_, ?_, ?_⟩
  · rw [hatk, horder]; exact hWF.atkMem
  · rw [hdef, horder]; exact hWF.defMem
  · intro q hq
    rw [horder] at hq
    rw [hhands]
    have hne : q ≠ pid := fun he => hq (by rw [he]; exact hmem)
    rw [Function.update_noteq hne]
    exact hWF.handsOut q hq

theorem cardsOf_takePhase (g : GameState) (hWF : WF g) :
    cardsOf (takePhase g) = cardsOf g ∧ WF (takePhase g) := by
  constructor
  · have hupd := handsJoin_update g.order g.hands g.defenderId
      (sortHand (g.hands g.defenderId ++ g.table.flatMap pairCards))
      hWF.nodup hWF.defMem
    rw [sortHand_cards, coe_append_cards] at hupd
    have key : cardsOf (takePhase g) + (g.hands g.defenderId : Multiset Card) =
        cardsOf g + (g.hands g.defenderId : Multiset Card) := by
      show (g.deck : Multiset Card) + (g.discard : Multiset Card) + tableMulti [] +
            handsMulti (takePhase g) + (g.hands g.defenderId : Multiset Card) = _
      have htm : tableMulti ([] : List TablePair) = 0 := rfl
      have hmm : handsMulti (takePhase g) =
          ((g.order.map (Function.update g.hands g.defenderId
            (sortHand (g.hands g.defenderId ++ g.table.flatMap pairCards)))).flatten :
              Multiset Card) := rfl
      rw [htm, hmm]
      calc (g.deck : Multiset Card) + (g.discard : Multiset Card) + 0 +
            ((g.order.map (Function.update g.hands g.defenderId
              (sortHand (g.hands g.defenderId ++ g.table.flatMap pairCards)))).flatten :
                Multiset Card) + (g.hands g.defenderId : Multiset Card)
          = (g.deck : Multiset Card) + (g.discard : Multiset Card) +
            (((g.order.map (Function.update g.hands g.defenderId
              (sortHand (g.hands g.defenderId ++ g.table.flatMap pairCards)))).flatten :
                Multiset Card) + (g.hands g.defenderId : Multiset Card)) := by abel
        _ = (g.deck : Multiset Card) + (g.discard : Multiset Card) +
            (((g.order.map g.hands).flatten : Multiset Card) +
              ((g.hands g.defenderId : Multiset Card) +
                ((g.table.flatMap pairCards : List Card) : Multiset Card))) := by
              rw [hupd]
        _ = cardsOf g + (g.hands g.defenderId : Multiset Card) := by
              show _ = (g.deck : Multiset Card) + (g.discard : Multiset Card) +
                tableMulti g.table + handsMulti g + (g.hands g.defenderId : Multiset Card)
              unfold tableMulti handsMulti
              abel
    exact add_right_cancel key
  · exact WF_hands_update g hWF g.defenderId _ hWF.defMem _ rfl rfl rfl rfl

theorem cardsOf_refillPhase (g : GameState) (hWF : WF g) :
    cardsOf (refillPhase g) = cardsOf g ∧ WF (refillPhase g) := by
  have hsub := buildDrawOrder_mem g hWF.orderNe hWF.atkMem
  obtain ⟨hc, hout⟩ := drawUpTo6_cards g.order hWF.nodup (buildDrawOrder g)
    g.hands g.deck hsub
  constructor
  · have key : cardsOf (refillPhase g) =
        (((drawUpTo6 g.hands g.deck (buildDrawOrder g)).2 : List Card) : Multiset Card) +
          (g.discard : Multiset Card) + tableMulti g.table +
          (((g.order.map (drawUpTo6 g.hands g.deck (buildDrawOrder g)).1).flatten :
            List Card) : Multiset Card) := rfl
    rw [key]
    unfold cardsOf handsMulti
    calc (((drawUpTo6 g.hands g.deck (buildDrawOrder g)).2 : List Card) : Multiset Card) +
          (g.discard : Multiset Card) + tableMulti g.table +
          (((g.order.map (drawUpTo6 g.hands g.deck (buildDrawOrder g)).1).flatten :
            List Card) : Multiset Card)
        = (((g.order.map (drawUpTo6 g.hands g.deck (buildDrawOrder g)).1).flatten :
            List Card) : Multiset Card) +
          (((drawUpTo6 g.hands g.deck (buildDrawOrder g)).2 : List Card) : Multiset Card) +
          ((g.discard : Multiset Card) + tableMulti g.table) := by abel
      _ = ((g.order.map g.hands).flatten : Multiset Card) + (g.deck : Multiset Card) +
          ((g.discard : Multiset Card) + tableMulti g.table) := by rw [hc]
      _ = (g.deck : Multiset Card) + (g.discard : Multiset Card) + tableMulti g.table +
          ((g.order.map g.hands).flatten : Multiset Card) := by abel
  · refine ⟨hWF.orderNe, hWF.nodup, hWF.atkMem, hWF.defMem, ?_⟩
    intro q hq
    show (drawUpTo6 g.hands g.deck (buildDrawOrder g)).1 q = []
    rw [hout q hq]
    exact hWF.handsOut q hq

theorem WF_fixRolesFrom (g : GameState) (atk0 def0 : String) (hWF : WF g)
    (ha : atk0 ∈ g.order) (hd : def0 ∈ g.order) : WF (fixRolesFrom g atk0 def0) := by
  have hatk1 : (if g.active atk0 = true then atk0
      else nextActiveId g.order g.active atk0) ∈ g.order := by
    split
    · exact ha
    · exact nextActiveId_mem g.order g.active atk0 hWF.orderNe ha
  have hdef1 : (if g.active def0 = true then def0
      else nextActiveId g.order g.active def0) ∈ g.order := by
    split
    · exact hd
    · exact nextActiveId_mem g.order g.active def0 hWF.orderNe hd
  refine ⟨hWF.orderNe, hWF.nodup, hatk1, ?_, hWF.handsOut⟩
  show (if (if g.active def0 = true then def0 else nextActiveId g.order g.active def0) =
        (if g.active atk0 = true then atk0 else nextActiveId g.order g.active atk0)
      then nextActiveId g.order g.active
        (if g.active atk0 = true then atk0 else nextActiveId g.order g.active atk0)
      else (if g.active def0 = true then def0
        else nextActiveId g.order g.active def0)) ∈ g.order
  repeat' split
  all_goals first
    | exact hd
    | exact ha
    | exact nextActiveId_mem g.order g.active _ hWF.orderNe hd
    | exact nextActiveId_mem g.order g.active _ hWF.orderNe ha
    | exact nextActiveId_mem g.order g.active _ hWF.orderNe
        (nextActiveId_mem g.order g.active _ hWF.orderNe ha)
    | exact nextActiveId_mem g.order g.active _ hWF.orderNe
        (nextActiveId_mem g.order g.active _ hWF.orderNe hd)

theorem cardsOf_endRoundTake (g : GameState) (hWF : WF g) :
    cardsOf (endRoundTake g) = cardsOf g ∧ WF (endRoundTake g) := by
  obtain ⟨ht1, ht2⟩ := cardsOf_takePhase g hWF
  obtain ⟨hr1, hr2⟩ := cardsOf_refillPhase (takePhase g) ht2
  have hnd : nextActiveId g.order g.active g.defenderId ∈ g.order :=
    nextActiveId_mem g.order g.active g.defenderId hWF.orderNe hWF.defMem
  have hset : WF ({ refillPhase (takePhase g) with
      defenderId := nextActiveId g.order g.active g.defenderId } : GameState) :=
    ⟨hr2.orderNe, hr2.nodup, hr2.atkMem, hnd, hr2.handsOut⟩
  have hsetc : cardsOf ({ refillPhase (takePhase g) with
      defenderId := nextActiveId g.order g.active g.defenderId } : GameState) =
      cardsOf (refillPhase (takePhase g)) := rfl
  have hp := cardsOf_pruneOutPlayers ({ refillPhase (takePhase g) with
      defenderId := nextActiveId g.order g.active g.defenderId } : GameState)
  have hpw := WF_pruneOutPlayers _ hset
  have hbody : endRoundTake g =
      if (pruneOutPlayers ({ refillPhase (takePhase g) with
          defenderId := nextActiveId g.order g.active g.defenderId } : GameState)).phase =
          Phase.finished then
        pruneOutPlayers ({ refillPhase (takePhase g) with
          defenderId := nextActiveId g.order g.active g.defenderId } : GameState)
      else resetRoundVars (fixRolesFrom
        (pruneOutPlayers ({ refillPhase (takePhase g) with
          defenderId := nextActiveId g.order g.active g.defenderId } : GameState))
        (pruneOutPlayers ({ refillPhase (takePhase g) with
          defenderId := nextActiveId g.order g.active g.defenderId } : GameState)).attackerId
        (pruneOutPlayers ({ refillPhase (takePhase g) with
          defenderId := nextActiveId g.order g.active g.defenderId } : GameState)).defenderId) :=
    rfl
  rw [hbody]
  split
  · exact ⟨by rw [hp, hsetc, hr1, ht1], hpw⟩
  · constructor
    · have h1 : cardsOf (resetRoundVars (fixRolesFrom
          (pruneOutPlayers ({ refillPhase (takePhase g) with
            defenderId := nextActiveId g.order g.active g.defenderId } : GameState))
          (pruneOutPlayers ({ refillPhase (takePhase g) with
            defenderId := nextActiveId g.order g.active g.defenderId } : GameState)).attackerId
          (pruneOutPlayers ({ refillPhase (takePhase g) with
            defenderId := nextActiveId g.order g.active g.defenderId } : GameState)).defenderId)) =
          cardsOf (pruneOutPlayers ({ refillPhase (takePhase g) with
            defenderId := nextActiveId g.order g.active g.defenderId } : GameState)) := rfl
      rw [h1, hp, hsetc, hr1, ht1]
    · have hwfix := WF_fixRolesFrom _ _ _ hpw hpw.atkMem hpw.defMem
      exact ⟨hwfix.orderNe, hwfix.nodup, hwfix.atkMem, hwfix.defMem, hwfix.handsOut⟩

theorem cardsOf_discardPhase (g : GameState) (hWF : WF g) :
    cardsOf (discardPhase g) = cardsOf g ∧ WF (discardPhase g) := by
  constructor
  · show (g.deck : Multiset Card) +
        ((g.discard ++ g.table.flatMap pairCards : List Card) : Multiset Card) +
        tableMulti [] + handsMulti (discardPhase g) = cardsOf g
    have hmm : handsMulti (discardPhase g) = handsMulti g := rfl
    have htm : tableMulti ([] : List TablePair) = 0 := rfl
    rw [hmm, htm, coe_append_cards]
    unfold cardsOf tableMulti
    abel
  · exact ⟨hWF.orderNe, hWF.nodup, hWF.atkMem, hWF.defMem, hWF.handsOut⟩

theorem cardsOf_endRoundBeat (g : GameState) (hWF : WF g) :
    cardsOf (endRoundBeat g) = cardsOf g ∧ WF (endRoundBeat g) := by
  obtain ⟨ht1, ht2⟩ := cardsOf_discardPhase g hWF
  obtain ⟨hr1, hr2⟩ := cardsOf_refillPhase (discardPhase g) ht2
  have hp := cardsOf_pruneOutPlayers (refillPhase (discardPhase g))
  have hpw := WF_pruneOutPlayers _ hr2
  have hdo : g.defenderId ∈ (pruneOutPlayers (refillPhase (discardPhase g))).order := by
    rw [(pruneOutPlayers_proj _).1]
    exact hWF.defMem
  have hno : nextActiveId g.order g.active g.defenderId ∈
      (pruneOutPlayers (refillPhase (discardPhase g))).order := by
    rw [(pruneOutPlayers_proj _).1]
    exact nextActiveId_mem g.order g.active g.defenderId hWF.orderNe hWF.defMem
  have hbody : endRoundBeat g =
      if (pruneOutPlayers (refillPhase (discardPhase g))).phase = Phase.finished then
        pruneOutPlayers (refillPhase (discardPhase g))
      else resetRoundVars (fixRolesFrom (pruneOutPlayers (refillPhase (discardPhase g)))
        g.defenderId (nextActiveId g.order g.active g.defenderId)) := rfl
  rw [hbody]
  split
  · exact ⟨by rw [hp, hr1, ht1], hpw⟩
  · constructor
    · have h1 : cardsOf (resetRoundVars (fixRolesFrom
          (pruneOutPlayers (refillPhase (discardPhase g)))
          g.defenderId (nextActiveId g.order g.active g.defenderId))) =
          cardsOf (pruneOutPlayers (refillPhase (discardPhase g))) := rfl
      rw [h1, hp, hr1, ht1]
    · have hwfix := WF_fixRolesFrom _ _ _ hpw hdo hno
      exact ⟨hwfix.orderNe, hwfix.nodup, hwfix.atkMem, hwfix.defMem, hwfix.handsOut⟩

theorem validateAttack_ok_mem (g : GameState) (pid : String) (card : Card)
    (h : validateAttack g pid card = .ok) : card ∈ g.hands pid := by
  unfold validateAttack at h
  split at h
  · exact absurd h (by simp)
  split at h
  · exact absurd h (by simp)
  split at h
  · exact absurd h (by simp)
  split at h
  · exact absurd h (by simp)
  · next hc =>
    simpa using hc

theorem validateDefend_ok_facts (g : GameState) (card : Card) (attackIndex : Int)
    (h : validateDefend g card attackIndex = .ok) :
    card ∈ g.hands g.defenderId ∧
    ∃ pair, g.table[attackIndex.toNat]? = some pair ∧ pair.d = none := by
  unfold validateDefend at h
  split at h
  · exact absurd h (by simp)
  split at h
  · exact absurd h (by simp)
  next pair heq =>
  split at h
  · exact absurd h (by simp)
  next hds =>
  split at h
  · exact absurd h (by simp)
  next hcont =>
  refine ⟨by simpa using hcont, pair, heq, ?_⟩
  cases hdd : pair.d with
  | none => rfl
  | some c =>
    rw [hdd] at hds
    simp at hds

theorem validateTransfer_ok_mem (g : GameState) (card : Card)
    (h : validateTransfer g card = .ok) : card ∈ g.hands g.defenderId := by
  unfold validateTransfer at h
  split at h
  · exact absurd h (by simp)
  split at h
  · exact absurd h (by simp)
  split at h
  · exact absurd h (by simp)
  split at h
  · exact absurd h (by simp)
  split at h
  · exact absurd h (by simp)
  · next hc =>
    simpa using hc

/-- Shared conservation argument for the hand-to-table moves of ATTACK,
DEFEND and TRANSFER: erase `card` from `pid`'s hand, account for it on the
table side. -/
theorem conserve_hand_to_table (g : GameState) (hWF : WF g) (pid : String)
    (card : Card) (hmem : card ∈ g.hands pid) (hpo : pid ∈ g.order)
    (T' : Multiset Card)
    (hT : T' = tableMulti g.table + {card}) (g' : GameState)
    (hdeck : g'.deck = g.deck) (hdisc : g'.discard = g.discard)
    (horder : g'.order = g.order)
    (hhands : g'.hands = Function.update g.hands pid ((g.hands pid).erase card))
    (htab : tableMulti g'.table = T') :
    cardsOf g' = cardsOf g := by
  have h1 : handsMulti g' + (g.hands pid : Multiset Card) =
      handsMulti g + (((g.hands pid).erase card : List Card) : Multiset Card) := by
    unfold handsMulti
    rw [horder, hhands]
    exact handsJoin_update g.order g.hands pid _ hWF.nodup hpo
  have h2 : (((g.hands pid).erase card : List Card) : Multiset Card) + {card} =
      (g.hands pid : Multiset Card) := erase_add_singleton _ _ hmem
  show (g'.deck : Multiset Card) + (g'.discard : Multiset Card) + tableMulti g'.table +
      handsMulti g' = cardsOf g
  rw [hdeck, hdisc, htab, hT]
  exact conserve_move _ _ _ _ _ _ _ h1 h2

theorem preserve_onAttack (g : GameState) (pid : String) (card : Card) (hWF : WF g) :
    WF (onAttack g pid card).g ∧ cardsOf (onAttack g pid card).g = cardsOf g := by
  unfold onAttack
  split
  · exact ⟨hWF, rfl⟩
  split
  · exact ⟨hWF, rfl⟩
  next hok =>
  have hmem := validateAttack_ok_mem g pid card hok
  have hpo : pid ∈ g.order := mem_order_of_hand_ne g hWF pid (by
    intro hh
    rw [hh] at hmem
    cases hmem)
  constructor
  · exact WF_hands_update g hWF pid _ hpo _ rfl rfl rfl rfl
  · refine conserve_hand_to_table g hWF pid card hmem hpo
      (tableMulti g.table + {card}) rfl _ rfl rfl rfl rfl ?_
    show tableMulti (g.table ++ [⟨card, none⟩]) = _
    rw [tableMulti_append_one]
    rfl

theorem preserve_onDefend (g : GameState) (pid : String) (attackIndex : Int)
    (card : Card) (hWF : WF g) :
    WF (onDefend g pid attackIndex card).g ∧
    cardsOf (onDefend g pid attackIndex card).g = cardsOf g := by
  unfold onDefend
  split
  · exact ⟨hWF, rfl⟩
  split
  · exact ⟨hWF, rfl⟩
  split
  · exact ⟨hWF, rfl⟩
  split
  · exact ⟨hWF, rfl⟩
  next hok =>
  obtain ⟨hmem, pair0, hp0, hd0⟩ := validateDefend_ok_facts g card attackIndex hok
  cases hp : g.table[attackIndex.toNat]? with
  | none =>
    rw [hp] at hp0
    cases hp0
  | some pair =>
    have hpair : pair = pair0 := by
      rw [hp] at hp0
      simpa using hp0
    subst hpair
    constructor
    · exact WF_hands_update g hWF g.defenderId _ hWF.defMem _ rfl rfl rfl rfl
    · refine conserve_hand_to_table g hWF g.defenderId card hmem hWF.defMem
        (tableMulti g.table + {card}) rfl _ rfl rfl rfl rfl ?_
      show tableMulti (g.table.set attackIndex.toNat ⟨pair.a, some card⟩) = _
      exact tableMulti_set g.table attackIndex.toNat pair card hp hd0

theorem preserve_onTransfer (g : GameState) (pid : String) (card : Card) (hWF : WF g) :
    WF (onTransfer g pid card).g ∧
    cardsOf (onTransfer g pid card).g = cardsOf g := by
  unfold onTransfer
  split
  · exact ⟨hWF, rfl⟩
  split
  · exact ⟨hWF, rfl⟩
  split
  · exact ⟨hWF, rfl⟩
  next hok =>
  have hmem := validateTransfer_ok_mem g card hok
  constructor
  · refine ⟨hWF.orderNe, hWF.nodup, hWF.defMem, ?_, ?_⟩
    · exact nextActiveId_mem g.order g.active g.defenderId hWF.orderNe hWF.defMem
    · intro q hq
      have hne : q ≠ g.defenderId := fun he => hq (by rw [he]; exact hWF.defMem)
      show Function.update g.hands g.defenderId _ q = []
      rw [Function.update_noteq hne]
      exact hWF.handsOut q hq
  · refine conserve_hand_to_table g hWF g.defenderId card hmem hWF.defMem
      (tableMulti g.table + {card}) rfl _ rfl rfl rfl rfl ?_
    show tableMulti (g.table ++ [⟨card, none⟩]) = _
    rw [tableMulti_append_one]
    rfl

theorem preserve_onPass (g : GameState) (pid : String) (hWF : WF g) :
    WF (onPass g pid).g ∧ cardsOf (onPass g pid).g = cardsOf g := by
  unfold onPass
  split
  · exact ⟨hWF, rfl⟩
  split
  · exact ⟨hWF, rfl⟩
  split
  · exact ⟨hWF, rfl⟩
  split
  all_goals dsimp only
  all_goals split
  · exact ⟨(cardsOf_endRoundTake ({ g with passed := g.passed } : GameState)
        ⟨hWF.orderNe, hWF.nodup, hWF.atkMem, hWF.defMem, hWF.handsOut⟩).2,
      by
        show cardsOf (endRoundTake ({ g with passed := g.passed } : GameState)) =
          cardsOf g
        rw [(cardsOf_endRoundTake ({ g with passed := g.passed } : GameState)
          ⟨hWF.orderNe, hWF.nodup, hWF.atkMem, hWF.defMem, hWF.handsOut⟩).1]⟩
  · exact ⟨⟨hWF.orderNe, hWF.nodup, hWF.atkMem, hWF.defMem, hWF.handsOut⟩, rfl⟩
  · exact ⟨(cardsOf_endRoundTake ({ g with passed := g.passed ++ [pid] } : GameState)
        ⟨hWF.orderNe, hWF.nodup, hWF.atkMem, hWF.defMem, hWF.handsOut⟩).2,
      by
        show cardsOf (endRoundTake
          ({ g with passed := g.passed ++ [pid] } : GameState)) = cardsOf g
        rw [(cardsOf_endRoundTake ({ g with passed := g.passed ++ [pid] } : GameState)
          ⟨hWF.orderNe, hWF.nodup, hWF.atkMem, hWF.defMem, hWF.handsOut⟩).1]
        rfl⟩
  · exact ⟨⟨hWF.orderNe, hWF.nodup, hWF.atkMem, hWF.defMem, hWF.handsOut⟩, rfl⟩

theorem preserve_onBeat (g : GameState) (pid : String) (hWF : WF g) :
    WF (onBeat g pid).g ∧ cardsOf (onBeat g pid).g = cardsOf g := by
  unfold onBeat
  split
  · exact ⟨hWF, rfl⟩
  split
  · exact ⟨hWF, rfl⟩
  split
  · exact ⟨hWF, rfl⟩
  dsimp only
  split
  · exact ⟨hWF, rfl⟩
  obtain ⟨he1, he2⟩ := cardsOf_endRoundBeat g hWF
  exact ⟨he2, he1⟩

theorem preserve_onTake (g : GameState) (pid : String) (hWF : WF g) :
    WF (onTake g pid).g ∧ cardsOf (onTake g pid).g = cardsOf g := by
  unfold onTake
  split
  · exact ⟨hWF, rfl⟩
  split
  · exact ⟨hWF, rfl⟩
  split
  · exact ⟨hWF, rfl⟩
  exact ⟨⟨hWF.orderNe, hWF.nodup, hWF.atkMem, hWF.defMem, hWF.handsOut⟩, rfl⟩

/-- One gameplay event preserves well-formedness and the card pool. -/
theorem step_preserves (g : GameState) (e : Ev) (hWF : WF g) :
    WF (step g e).g ∧ cardsOf (step g e).g = cardsOf g := by
  cases e with
  | ATTACK pid card => exact preserve_onAttack g pid card hWF
  | DEFEND pid idx card => exact preserve_onDefend g pid idx card hWF
  | TRANSFER pid card => exact preserve_onTransfer g pid card hWF
  | TAKE pid => exact preserve_onTake g pid hWF
  | PASS pid => exact preserve_onPass g pid hWF
  | BEAT pid => exact preserve_onBeat g pid hWF

theorem dealOne_cards (order : List String) (hnd : order.Nodup)
    (st : (String → List Card) × List Card) (pid : String) (hpo : pid ∈ order) :
    (((order.map (dealOne st pid).1).flatten : List Card) : Multiset Card) +
        (((dealOne st pid).2 : List Card) : Multiset Card) =
      (((order.map st.1).flatten : List Card) : Multiset Card) +
        ((st.2 : List Card) : Multiset Card) := by
  cases h : st.2.getLast? with
  | none =>
    have hnil : st.2 = [] := (List.getLast?_eq_none_iff).mp h
    unfold dealOne
    rw [h, hnil]
    rfl
  | some c =>
    have hne : st.2 ≠ [] := by
      intro hh
      rw [hh] at h
      simp at h
    have hg : st.2.getLast hne = c := by
      have hx := List.getLast?_eq_getLast st.2 hne
      rw [hx] at h
      simpa using h
    have hc : st.2.dropLast ++ [c] = st.2 := by
      rw [← hg]
      exact List.dropLast_append_getLast hne
    unfold dealOne
    rw [h]
    have hupd := handsJoin_update order st.1 pid (st.1 pid ++ [c]) hnd hpo
    rw [coe_append_cards] at hupd
    have key : (((order.map (Function.update st.1 pid (st.1 pid ++ [c]))).flatten :
          List Card) : Multiset Card) +
        ((st.2.dropLast : List Card) : Multiset Card) +
        ((st.1 pid : List Card) : Multiset Card) =
        (((order.map st.1).flatten : List Card) : Multiset Card) +
        ((st.2 : List Card) : Multiset Card) +
        ((st.1 pid : List Card) : Multiset Card) := by
      calc (((order.map (Function.update st.1 pid (st.1 pid ++ [c]))).flatten :
            List Card) : Multiset Card) +
          ((st.2.dropLast : List Card) : Multiset Card) +
          ((st.1 pid : List Card) : Multiset Card)
          = ((((order.map (Function.update st.1 pid (st.1 pid ++ [c]))).flatten :
              List Card) : Multiset Card) +
            ((st.1 pid : List Card) : Multiset Card)) +
            ((st.2.dropLast : List Card) : Multiset Card) := by abel
        _ = (((order.map st.1).flatten : List Card) : Multiset Card) +
            (((st.1 pid : List Card) : Multiset Card) +
              (([c] : List Card) : Multiset Card)) +
            ((st.2.dropLast : List Card) : Multiset Card) := by rw [hupd]
        _ = (((order.map st.1).flatten : List Card) : Multiset Card) +
            (((st.2.dropLast : List Card) : Multiset Card) +
              (([c] : List Card) : Multiset Card)) +
            ((st.1 pid : List Card) : Multiset Card) := by abel
        _ = (((order.map st.1).flatten : List Card) : Multiset Card) +
            ((st.2.dropLast ++ [c] : List Card) : Multiset Card) +
            ((st.1 pid : List Card) : Multiset Card) := by rw [coe_append_cards]
        _ = (((order.map st.1).flatten : List Card) : Multiset Card) +
            ((st.2 : List Card) : Multiset Card) +
            ((st.1 pid : List Card) : Multiset Card) := by rw [hc]
    exact add_right_cancel key

theorem dealList_cards (order : List String) (hnd : order.Nodup)
    (os : List String) (hsub : ∀ pid ∈ os, pid ∈ order)
    (st : (String → List Card) × List Card) :
    (((order.map (os.foldl dealOne st).1).flatten : List Card) : Multiset Card) +
        (((os.foldl dealOne st).2 : List Card) : Multiset Card) =
      (((order.map st.1).flatten : List Card) : Multiset Card) +
        ((st.2 : List Card) : Multiset Card) := by
  induction os generalizing st with
  | nil => rfl
  | cons p ds ih =>
    have hp : p ∈ order := hsub p (List.mem_cons_self _ _)
    show (((order.map (ds.foldl dealOne (dealOne st p)).1).flatten : List Card) :
          Multiset Card) +
        (((ds.foldl dealOne (dealOne st p)).2 : List Card) : Multiset Card) =
      (((order.map st.1).flatten : List Card) : Multiset Card) +
        ((st.2 : List Card) : Multiset Card)
    rw [ih (fun q hq => hsub q (List.mem_cons_of_mem _ hq)) (dealOne st p)]
    exact dealOne_cards order hnd st p hp

theorem dealRounds_cards (order : List String) (hnd : order.Nodup) (k : Nat)
    (st : (String → List Card) × List Card) :
    (((order.map (dealRounds k order st).1).flatten : List Card) : Multiset Card) +
        (((dealRounds k order st).2 : List Card) : Multiset Card) =
      (((order.map st.1).flatten : List Card) : Multiset Card) +
        ((st.2 : List Card) : Multiset Card) := by
  induction k generalizing st with
  | zero => rfl
  | succ k ih =>
    show (((order.map (dealRounds k order (dealRound order st)).1).flatten : List Card) :
          Multiset Card) +
        (((dealRounds k order (dealRound order st)).2 : List Card) : Multiset Card) =
      (((order.map st.1).flatten : List Card) : Multiset Card) +
        ((st.2 : List Card) : Multiset Card)
    rw [ih (dealRound order st)]
    exact dealList_cards order hnd order (fun _ h => h) st

theorem dealOne_outside (st : (String → List Card) × List Card) (p pid : String)
    (h : pid ≠ p) : (dealOne st p).1 pid = st.1 pid := by
  unfold dealOne
  cases hg : st.2.getLast? with
  | none => rfl
  | some c => exact Function.update_noteq h _ _

theorem dealList_outside (os : List String) (st : (String → List Card) × List Card)
    (pid : String) (h : pid ∉ os) : (os.foldl dealOne st).1 pid = st.1 pid := by
  induction os generalizing st with
  | nil => rfl
  | cons p ds ih =>
    have h1 : pid ≠ p := fun he => h (by rw [he]; exact List.mem_cons_self _ _)
    have h2 : pid ∉ ds := fun hm => h (List.mem_cons_of_mem _ hm)
    show (ds.foldl dealOne (dealOne st p)).1 pid = st.1 pid
    rw [ih (dealOne st p) h2]
    exact dealOne_outside st p pid h1

theorem dealRounds_outside (k : Nat) (order : List String)
    (st : (String → List Card) × List Card) (pid : String) (h : pid ∉ order) :
    (dealRounds k order st).1 pid = st.1 pid := by
  induction k generalizing st with
  | zero => rfl
  | succ k ih =>
    show (dealRounds k order (dealRound order st)).1 pid = st.1 pid
    rw [ih (dealRound order st)]
    exact dealList_outside order st pid h

theorem flatten_map_perm (order : List String) (h1 h2 : String → List Card)
    (hp : ∀ id ∈ order, (h2 id).Perm (h1 id)) :
    ((order.map h2).flatten).Perm ((order.map h1).flatten) := by
  induction order with
  | nil => exact List.Perm.refl _
  | cons a os ih =>
    exact (hp a (List.mem_cons_self _ _)).append
      (ih fun id hid => hp id (List.mem_cons_of_mem _ hid))

theorem firstAttacker_mem (order : List String) (hands : String → List Card)
    (trumpSuit : Char) (hne : order ≠ []) :
    firstAttacker order hands trumpSuit ∈ order := by
  unfold firstAttacker
  have key : ∀ (os : List String) (acc : Option Nat × Option String),
      (∀ p, acc.2 = some p → p ∈ order) → (∀ x ∈ os, x ∈ order) →
      ∀ p, (os.foldl (fun (acc : Option Nat × Option String) pid =>
        match lowestTrumpRank (hands pid) trumpSuit with
        | none => acc
        | some r =>
          match acc.1 with
          | none => (some r, some pid)
          | some b => if r < b then (some r, some pid) else acc) acc).2 = some p →
        p ∈ order := by
    intro os
    induction os with
    | nil => intro acc hacc _ p hp; exact hacc p hp
    | cons a os ih =>
      intro acc hacc hsub p hp
      refine ih _ ?_ (fun x hx => hsub x (List.mem_cons_of_mem _ hx)) p hp
      intro q hq
      have h2 : ((match lowestTrumpRank (hands a) trumpSuit with
          | none => acc
          | some r =>
            match acc.1 with
            | none => ((some r : Option Nat), (some a : Option String))
            | some b => if r < b then (some r, some a) else acc) :
          Option Nat × Option String).2 = some q := hq
      cases hl : lowestTrumpRank (hands a) trumpSuit with
      | none =>
        rw [hl] at h2
        exact hacc q h2
      | some r =>
        rw [hl] at h2
        cases ha1 : acc.1 with
        | none =>
          rw [ha1] at h2
          obtain rfl : a = q := Option.some.inj h2
          exact hsub a (List.mem_cons_self _ _)
        | some b =>
          rw [ha1] at h2
          have h3 : (if r < b then ((some r : Option Nat), (some a : Option String))
              else acc).2 = some q := h2
          by_cases hrb : r < b
          · rw [if_pos hrb] at h3
            obtain rfl : a = q := Option.some.inj h3
            exact hsub a (List.mem_cons_self _ _)
          · rw [if_neg hrb] at h3
            exact hacc q h3
  have hmem : ∀ res : Option String, (∀ p, res = some p → p ∈ order) →
      res.getD (order.headD "") ∈ order := by
    intro res h
    cases res with
    | none =>
      cases order with
      | nil => exact absurd rfl hne
      | cons a l => exact List.mem_cons_self a l
    | some p => exact h p rfl
  exact hmem _ (key order (none, none) (fun q hq => Option.noConfusion hq)
    (fun _ h => h))

theorem flatten_map_nil (order : List String) :
    (order.map (fun _ => ([] : List Card))).flatten = [] := by
  induction order with
  | nil => rfl
  | cons a os ih => simpa using ih

theorem sortedHands_cards (order : List String) (shuffled : List Card) :
    (((order.map (sortedHands order shuffled)).flatten : List Card) : Multiset Card) =
      (((order.map (dealHands order shuffled).1).flatten : List Card) :
        Multiset Card) := by
  refine Multiset.coe_eq_coe.mpr (flatten_map_perm order _ _ ?_)
  intro id hid
  unfold sortedHands
  rw [if_pos (List.elem_iff.mpr hid)]
  exact sortHand_perm _

theorem cardsOf_initGame (cfg : RoomConfig) (players : List String)
    (shuffled : List Card) (g0 : GameState)
    (hnd : (players.take cfg.maxPlayers).Nodup)
    (h : initGame cfg players shuffled = some g0) :
    cardsOf g0 = (shuffled : Multiset Card) := by
  cases shuffled with
  | nil => simp [initGame] at h
  | cons c0 rest =>
    cases hpc : parseCard c0 with
    | none =>
      simp only [initGame, hpc] at h
      exact Option.noConfusion h
    | some pc =>
      rw [initGame_cons cfg players c0 rest pc hpc] at h
      obtain rfl : _ = g0 := Option.some.inj h
      show ((dealHands (players.take cfg.maxPlayers) (c0 :: rest)).2 : Multiset Card) +
          (([] : List Card) : Multiset Card) + tableMulti [] +
          ((((players.take cfg.maxPlayers).map
              (sortedHands (players.take cfg.maxPlayers) (c0 :: rest))).flatten :
            List Card) : Multiset Card) =
        ((c0 :: rest : List Card) : Multiset Card)
      rw [sortedHands_cards]
      have h0 : (([] : List Card) : Multiset Card) = 0 := rfl
      have ht : tableMulti [] = 0 := rfl
      rw [h0, ht, add_zero, add_zero, add_comm]
      have hdeal := dealRounds_cards (players.take cfg.maxPlayers) hnd 6
        (fun _ => ([] : List Card), (c0 :: rest : List Card))
      dsimp only at hdeal
      rw [flatten_map_nil, h0, zero_add] at hdeal
      exact hdeal

theorem WF_initGame (cfg : RoomConfig) (players : List String)
    (shuffled : List Card) (g0 : GameState)
    (hne : players.take cfg.maxPlayers ≠ [])
    (hnd : (players.take cfg.maxPlayers).Nodup)
    (h : initGame cfg players shuffled = some g0) : WF g0 := by
  cases shuffled with
  | nil => simp [initGame] at h
  | cons c0 rest =>
    cases hpc : parseCard c0 with
    | none =>
      simp only [initGame, hpc] at h
      exact Option.noConfusion h
    | some pc =>
      rw [initGame_cons cfg players c0 rest pc hpc] at h
      obtain rfl : _ = g0 := Option.some.inj h
      refine ⟨hne, hnd, ?_, ?_, ?_⟩
      · exact firstAttacker_mem _ _ _ hne
      · exact nextActiveId_mem _ _ _ hne (firstAttacker_mem _ _ _ hne)
      · intro pid hpid
        show sortedHands (players.take cfg.maxPlayers) (c0 :: rest) pid = []
        unfold sortedHands
        rw [if_neg (fun hc => hpid (List.elem_iff.mp hc))]
        show (dealRounds 6 (players.take cfg.maxPlayers)
            (fun _ => ([] : List Card), (c0 :: rest : List Card))).1 pid = []
        rw [dealRounds_outside 6 _ _ pid hpid]

theorem runEvents_preserves (evs : List Ev) (g : GameState) (hWF : WF g) :
    cardsOf (runEvents evs g) = cardsOf g := by
  induction evs generalizing g with
  | nil => rfl
  | cons e es ih =>
    show cardsOf (runEvents es (step g e).g) = cardsOf g
    rw [ih (step g e).g (step_preserves g e hWF).1]
    exact (step_preserves g e hWF).2

/-- C2: card conservation. From a freshly dealt game (`initGame` on any shuffle
of the configured deck, with duplicate-free non-empty seating) and after any
sequence of ATTACK, DEFEND, TRANSFER, TAKE, PASS, BEAT events, the multiset of
the deck, the discard pile, every seated player's hand and all attack and
defense cards on the table equals the initial full deck
`createDeck cfg.deckSize`, and that deck holds no duplicate card. -/
theorem card_conservation (cfg : RoomConfig) (players : List String)
    (shuffled : List Card) (g0 : GameState) (evs : List Ev)
    (hne : players.take cfg.maxPlayers ≠ [])
    (hnd : (players.take cfg.maxPlayers).Nodup)
    (hperm : shuffled.Perm (createDeck cfg.deckSize))
    (h : initGame cfg players shuffled = some g0) :
    cardsOf (runEvents evs g0) = (createDeck cfg.deckSize : Multiset Card) ∧
      (createDeck cfg.deckSize).Nodup := by
  constructor
  · rw [runEvents_preserves evs g0 (WF_initGame cfg players shuffled g0 hne hnd h),
      cardsOf_initGame cfg players shuffled g0 hnd h]
    exact Multiset.coe_eq_coe.mpr hperm
  · by_cases h24 : cfg.deckSize = 24
    · rw [h24]
      decide
    · have hc : createDeck cfg.deckSize = createDeck 36 := by
        unfold createDeck
        rw [if_neg h24]
        rfl
      rw [hc]
      decide

/-- Witness for `card_conservation`: the two-player room on the full
36-card deck, after an attack, a take declaration and a pass. -/
theorem card_conservation_witness :
    ((["a", "b"].take cfgP2.maxPlayers ≠ [] ∧
        (["a", "b"].take cfgP2.maxPlayers).Nodup ∧
        (createDeck 36).Perm (createDeck cfgP2.deckSize)) ∧
      initGame cfgP2 ["a", "b"] (createDeck 36) = some gInit2) ∧
    (cardsOf (runEvents [Ev.ATTACK "a" "C6", Ev.TAKE "b", Ev.PASS "a"] gInit2) =
        (createDeck cfgP2.deckSize : Multiset Card) ∧
      (createDeck cfgP2.deckSize).Nodup) :=
  ⟨⟨⟨by decide, by decide, List.Perm.refl _⟩, by rfl⟩,
    card_conservation cfgP2 ["a", "b"] (createDeck 36) gInit2
      [Ev.ATTACK "a" "C6", Ev.TAKE "b", Ev.PASS "a"]
      (by decide) (by decide) (List.Perm.refl _) (by rfl)⟩

end Durak
